import Mathlib

/-!
Verification development for the c4-in-Rust compiler/interpreter.

The repository contains two variants of the same program:
- the base, integer-only variant (`src/main.rs`), embedded below in
  namespace `Base`;
- the bonus, integer-or-float variant (the second source file),
  embedded below in namespace `Bonus`.

Each variant is a three-stage pipeline: a lexer (`tokenize`), a
single-pass recursive-descent parser with inline code generation
(`parse`), and a stack-based virtual machine (`execute`).

Modelling conventions, shared by both namespaces:
- Rust `i64` values are modelled as unbounded `Int`; none of the
  properties proved here exercises 64-bit overflow.
- Rust `x as usize` (for the program counter and for load/store
  offsets) is modelled by `asUsize`, reduction modulo 2^64: for every
  `i64` input and every vector length that can occur this agrees with
  the Rust cast-and-compare.
- Rust `HashMap<String, Symbol>` is used only through `insert`, `get`
  and `clear`, so it is modelled as an association list with
  prepend-insert (`insertSym`) and first-match lookup (`findSym`),
  which is observationally identical for those three operations.
- The unbounded `while` loops of the Rust parser and VM are modelled
  with an explicit fuel parameter; running out of fuel is a distinct
  outcome, never identified with a result the Rust code can produce.
- The mutually recursive Rust parser functions become one function
  `parseF` structurally recursive on fuel, dispatching on a `Call` tag;
  each tag's branch is a direct transcription of one Rust function
  (or of one `while` loop inside such a function).
- In the bonus variant, Rust `f64` literals and values are modelled as
  exact rationals (`Rat`).  The properties proved about the bonus VM
  only compare float values with zero (`0.0` matches `-0.0` in the
  Rust pattern, and equals `0` in `Rat`), so rounding plays no role.
-/

/-- Which Rust parser function (or loop inside one) a `parseF` call models. -/
inductive Call where
  | programLoop   -- the `while` loop of `parse_program`
  | globalItem    -- the body of `parse_program`'s loop after consuming the type keyword
  | skipDecl      -- `parse_program`'s skip-to-semicolon loop for global declarations
  | stmts         -- `while current != RBrace { parse_stmt }` (function body and `{}` block)
  | stmt          -- `parse_stmt`
  | ifS           -- `parse_if`
  | whileS        -- `parse_while`
  | localLoop     -- the declarator loop of `parse_local_decl` (after consuming the type)
  | assignment    -- `parse_assignment` (also `parse_expr`, which just delegates)
  | additive      -- `parse_additive`
  | addLoop       -- the `+`/`-` loop of `parse_additive`
  | term          -- `parse_term`
  | mulLoop       -- the `*`/`/` loop of `parse_term`
  | factor        -- `parse_factor`
  deriving DecidableEq, Repr

/-- Rust `x as usize` for an `i64` value `x`: reduction modulo 2^64. -/
def asUsize (x : Int) : Nat := (x % (2:Int)^64).toNat

/-- Outcome of a fuelled VM run: the Rust `Ok`, the Rust `Err`, or fuel
exhaustion (which the Rust `loop` can never report). -/
inductive ExecOut (α : Type) where
  | ok (v : α)
  | err (e : String)
  | fuelOut
  deriving DecidableEq, Repr

/-- One VM dispatch step either finishes with a result or continues with
a new stack and program counter. -/
inductive StepRes (α : Type) where
  | done (r : Except String α)
  | next (stack : List α) (pc : Int)

namespace Base

/-- `lexer::Token` of the base variant. -/
inductive Token where
  | Int
  | Char
  | Return
  | If
  | Else
  | While
  | Ident (s : String)
  | Num (n : Int)
  | Plus
  | Minus
  | Mul
  | Div
  | Assign
  | Eq
  | Ne
  | Lt
  | Gt
  | Le
  | Ge
  | Semicolon
  | Comma
  | LParen
  | RParen
  | LBrace
  | RBrace
  | EOF
  deriving DecidableEq, Repr

/-- Rust `{:?}` rendering of a token, used in parser error messages. -/
def describe : Token → String
  | .Int => "Int"
  | .Char => "Char"
  | .Return => "Return"
  | .If => "If"
  | .Else => "Else"
  | .While => "While"
  | .Ident s => "Ident(\"" ++ s ++ "\")"
  | .Num n => "Num(" ++ toString n ++ ")"
  | .Plus => "Plus"
  | .Minus => "Minus"
  | .Mul => "Mul"
  | .Div => "Div"
  | .Assign => "Assign"
  | .Eq => "Eq"
  | .Ne => "Ne"
  | .Lt => "Lt"
  | .Gt => "Gt"
  | .Le => "Le"
  | .Ge => "Ge"
  | .Semicolon => "Semicolon"
  | .Comma => "Comma"
  | .LParen => "LParen"
  | .RParen => "RParen"
  | .LBrace => "LBrace"
  | .RBrace => "RBrace"
  | .EOF => "EOF"

/-- `' ' | '\t' | '\n' | '\r'` of the lexer's whitespace arm. -/
def isWs (c : Char) : Bool := c = ' ' || c = '\t' || c = '\n' || c = '\r'

/-- Rust `is_digit(10)` / the `'0'..='9'` arm. -/
def isDigitC (c : Char) : Bool := '0' ≤ c && c ≤ '9'

/-- The `'a'..='z' | 'A'..='Z' | '_'` identifier-start arm. -/
def isIdentStart (c : Char) : Bool :=
  ('a' ≤ c && c ≤ 'z') || ('A' ≤ c && c ≤ 'Z') || c = '_'

/-- Rust `c.is_alphanumeric() || c == '_'` for identifier continuation
(restricted to ASCII, which covers every input considered here). -/
def isIdentCont (c : Char) : Bool :=
  ('a' ≤ c && c ≤ 'z') || ('A' ≤ c && c ≤ 'Z') || isDigitC c || c = '_'

/-- Numeric value of a digit run, as built by `num_str.parse::<i64>()`. -/
def natOfDigits (ds : List Char) : Nat :=
  ds.foldl (fun acc c => 10 * acc + (c.toNat - '0'.toNat)) 0

/-- Keyword table of the identifier arm of `tokenize`. -/
def keywordOrIdent (s : String) : Token :=
  if s = "int" then .Int
  else if s = "char" then .Char
  else if s = "return" then .Return
  else if s = "if" then .If
  else if s = "else" then .Else
  else if s = "while" then .While
  else .Ident s

/-- The `while let Some(&ch) = chars.peek()` loop of `lexer::tokenize`.
Each iteration consumes at least one character, so fuel
`length + 1` always suffices. -/
def tokLoop : Nat → List Char → List Token → Except String (List Token)
  | 0, _, _ => .error "lexer fuel exhausted"
  | _fuel+1, [], acc => .ok (acc ++ [Token.EOF])
  | fuel+1, c :: cs, acc =>
    if isWs c then tokLoop fuel cs acc
    else if isDigitC c then
      let ds := (c :: cs).takeWhile isDigitC
      let rest := (c :: cs).dropWhile isDigitC
      let n := natOfDigits ds
      -- `parse::<i64>` fails on overflow; the message is summarized.
      if n ≤ 2^63 - 1 then tokLoop fuel rest (acc ++ [Token.Num (n : Int)])
      else .error "number too large to fit in target type"
    else if isIdentStart c then
      let ds := (c :: cs).takeWhile isIdentCont
      let rest := (c :: cs).dropWhile isIdentCont
      tokLoop fuel rest (acc ++ [keywordOrIdent (String.mk ds)])
    else if c = '+' then tokLoop fuel cs (acc ++ [Token.Plus])
    else if c = '-' then tokLoop fuel cs (acc ++ [Token.Minus])
    else if c = '*' then tokLoop fuel cs (acc ++ [Token.Mul])
    else if c = '/' then
      match cs with
      | '/' :: cs2 => tokLoop fuel (cs2.dropWhile (fun d => d ≠ '\n')) acc
      | _ => tokLoop fuel cs (acc ++ [Token.Div])
    else if c = '=' then
      match cs with
      | '=' :: cs2 => tokLoop fuel cs2 (acc ++ [Token.Eq])
      | _ => tokLoop fuel cs (acc ++ [Token.Assign])
    else if c = '!' then
      match cs with
      | '=' :: cs2 => tokLoop fuel cs2 (acc ++ [Token.Ne])
      | _ => .error "Unexpected \x27!\x27"
    else if c = '<' then
      match cs with
      | '=' :: cs2 => tokLoop fuel cs2 (acc ++ [Token.Le])
      | _ => tokLoop fuel cs (acc ++ [Token.Lt])
    else if c = '>' then
      match cs with
      | '=' :: cs2 => tokLoop fuel cs2 (acc ++ [Token.Ge])
      | _ => tokLoop fuel cs (acc ++ [Token.Gt])
    else if c = ';' then tokLoop fuel cs (acc ++ [Token.Semicolon])
    else if c = ',' then tokLoop fuel cs (acc ++ [Token.Comma])
    else if c = '(' then tokLoop fuel cs (acc ++ [Token.LParen])
    else if c = ')' then tokLoop fuel cs (acc ++ [Token.RParen])
    else if c = '\x7b' then tokLoop fuel cs (acc ++ [Token.LBrace])
    else if c = '\x7d' then tokLoop fuel cs (acc ++ [Token.RBrace])
    else .error ("Unexpected character: " ++ String.mk [c])

/-- `lexer::tokenize` of the base variant. -/
def tokenize (source : String) : Except String (List Token) :=
  tokLoop (source.data.length + 1) source.data []

/-- `vm::Opcode` of the base variant. -/
inductive Opcode where
  | Imm (n : Int)
  | Ld (offset : Int)
  | St (offset : Int)
  | Add
  | Sub
  | Mul
  | Div
  | Jmp (addr : Int)
  | Jz (addr : Int)
  | Ret
  deriving DecidableEq, Repr

/-- `parser::SymbolClass`. -/
inductive SymbolClass where
  | Global
  | Local
  | Function
  deriving DecidableEq, Repr

/-- `parser::Symbol`. -/
structure Symbol where
  name : String
  class' : SymbolClass
  offset : Int
  deriving DecidableEq, Repr

/-- `HashMap::insert` on the association-list model. -/
def insertSym (m : List (String × Symbol)) (k : String) (v : Symbol) :
    List (String × Symbol) :=
  (k, v) :: m

/-- `HashMap::get` on the association-list model. -/
def findSym (k : String) : List (String × Symbol) → Option Symbol
  | [] => none
  | (k', v) :: rest => if k' = k then some v else findSym k rest

/-- The fields of `parser::Parser`. -/
structure PState where
  tokens : List Token
  pos : Nat
  opcodes : List Opcode
  globals : List (String × Symbol)
  locals : List (String × Symbol)
  localOffset : Int
  deriving Repr

/-- `Parser::new`. -/
def initState (ts : List Token) : PState :=
  { tokens := ts, pos := 0, opcodes := [], globals := [], locals := [],
    localOffset := 0 }

/-- `Parser::current`: `tokens.get(pos).unwrap_or(&EOF)`. -/
def current (st : PState) : Token := st.tokens.getD st.pos Token.EOF

/-- `self.pos += 1`. -/
def advance (st : PState) : PState := { st with pos := st.pos + 1 }

/-- `self.opcodes.push(op)`. -/
def pushOp (st : PState) (op : Opcode) : PState :=
  { st with opcodes := st.opcodes ++ [op] }

/-- `self.opcodes[i] = op` (backpatching; `i` is always in bounds when
the Rust code runs this). -/
def setOp (st : PState) (i : Nat) (op : Opcode) : PState :=
  { st with opcodes := st.opcodes.set i op }

/-- `Parser::expect` (`eat`-then-error). -/
def expect (st : PState) (t : Token) : Except String PState :=
  if current st = t then .ok (advance st)
  else .error ("Expected " ++ describe t ++ ", found " ++ describe (current st))

/-- The whole recursive-descent parser of the base variant, one Rust
function (or one loop inside a Rust function) per `Call` tag; see the
tag documentation on `Call`.  Structurally recursive on the fuel. -/
def parseF : Nat → Call → PState → Except String PState
  | 0, _, _ => .error "parser fuel exhausted"
  | fuel+1, c, st =>
    match c with
    | .programLoop =>
      if current st = Token.EOF then .ok st
      else
        match current st with
        | .Int => parseF fuel .globalItem (advance st)
        | t => .error ("Unexpected token at global scope: " ++ describe t)
    | .globalItem =>
      match current st with
      | .Ident name =>
        let st1 := advance st
        if current st1 = Token.LParen then
          -- function definition
          let st2 := advance st1
          if name = "main" then
            match expect st2 .RParen with
            | .error e => .error e
            | .ok st3 =>
              match expect st3 .LBrace with
              | .error e => .error e
              | .ok st4 =>
                let st5 := { st4 with locals := [], localOffset := 0 }
                match parseF fuel .stmts st5 with
                | .error e => .error e
                | .ok st6 =>
                  match expect st6 .RBrace with
                  | .error e => .error e
                  | .ok st7 => parseF fuel .programLoop (pushOp st7 .Ret)
          else .error "Only main function is supported"
        else
          -- global variable declaration
          let st2 :=
            { st1 with
              globals := insertSym st1.globals name (Symbol.mk name .Global 0) }
          match parseF fuel .skipDecl st2 with
          | .error e => .error e
          | .ok st3 =>
            match expect st3 .Semicolon with
            | .error e => .error e
            | .ok st4 => parseF fuel .programLoop st4
      | _ => .error "Expected identifier after type"
    | .skipDecl =>
      if current st = Token.Semicolon then .ok st
      else if current st = Token.EOF then .ok st
      else parseF fuel .skipDecl (advance st)
    | .stmts =>
      if current st = Token.RBrace then .ok st
      else
        match parseF fuel .stmt st with
        | .error e => .error e
        | .ok st1 => parseF fuel .stmts st1
    | .stmt =>
      match current st with
      | .Return =>
        let st1 := advance st
        match parseF fuel .assignment st1 with
        | .error e => .error e
        | .ok st2 =>
          match expect st2 .Semicolon with
          | .error e => .error e
          | .ok st3 => .ok (pushOp st3 .Ret)
      | .If => parseF fuel .ifS st
      | .While => parseF fuel .whileS st
      | .LBrace =>
        let st1 := advance st
        match parseF fuel .stmts st1 with
        | .error e => .error e
        | .ok st2 => expect st2 .RBrace
      | .Int => parseF fuel .localLoop (advance st)
      | _ =>
        -- expression statement
        match parseF fuel .assignment st with
        | .error e => .error e
        | .ok st1 => expect st1 .Semicolon
    | .ifS =>
      let st1 := advance st
      match expect st1 .LParen with
      | .error e => .error e
      | .ok st2 =>
        match parseF fuel .assignment st2 with
        | .error e => .error e
        | .ok st3 =>
          match expect st3 .RParen with
          | .error e => .error e
          | .ok st4 =>
            let jzIndex := st4.opcodes.length
            let st5 := pushOp st4 (.Jz 0)
            match parseF fuel .stmt st5 with
            | .error e => .error e
            | .ok st6 =>
              if current st6 = Token.Else then
                let st7 := advance st6
                let jmpIndex := st7.opcodes.length
                let st8 := pushOp st7 (.Jmp 0)
                let st9 := setOp st8 jzIndex (.Jz (st8.opcodes.length : Int))
                match parseF fuel .stmt st9 with
                | .error e => .error e
                | .ok st10 =>
                  .ok (setOp st10 jmpIndex (.Jmp (st10.opcodes.length : Int)))
              else
                .ok (setOp st6 jzIndex (.Jz (st6.opcodes.length : Int)))
    | .whileS =>
      let st1 := advance st
      let loopStart : Int := st1.opcodes.length
      match expect st1 .LParen with
      | .error e => .error e
      | .ok st2 =>
        match parseF fuel .assignment st2 with
        | .error e => .error e
        | .ok st3 =>
          match expect st3 .RParen with
          | .error e => .error e
          | .ok st4 =>
            let jzIndex := st4.opcodes.length
            let st5 := pushOp st4 (.Jz 0)
            match parseF fuel .stmt st5 with
            | .error e => .error e
            | .ok st6 =>
              let st7 := pushOp st6 (.Jmp loopStart)
              .ok (setOp st7 jzIndex (.Jz (st7.opcodes.length : Int)))
    | .localLoop =>
      match current st with
      | .Ident name =>
        let st1 := advance st
        let off := st1.localOffset + 1
        let st2 :=
          { st1 with
            localOffset := off,
            locals := insertSym st1.locals name (Symbol.mk name .Local off) }
        if current st2 = Token.Comma then parseF fuel .localLoop (advance st2)
        else expect st2 .Semicolon
      | _ => .error "Expected identifier in local declaration"
    | .assignment =>
      match current st with
      | .Ident name =>
        let st1 := advance st
        if current st1 = Token.Assign then
          let st2 := advance st1
          match parseF fuel .assignment st2 with
          | .error e => .error e
          | .ok st3 =>
            match findSym name st3.locals with
            | some sym => .ok (pushOp st3 (.St sym.offset))
            | none =>
              match findSym name st3.globals with
              | some sym => .ok (pushOp st3 (.St sym.offset))
              | none => .error ("Undefined variable: " ++ name)
        else
          -- `self.pos = start`: the speculative lookahead is undone
          parseF fuel .additive st
      | _ => parseF fuel .additive st
    | .additive =>
      match parseF fuel .term st with
      | .error e => .error e
      | .ok st1 => parseF fuel .addLoop st1
    | .addLoop =>
      match current st with
      | .Plus =>
        match parseF fuel .term (advance st) with
        | .error e => .error e
        | .ok st1 => parseF fuel .addLoop (pushOp st1 .Add)
      | .Minus =>
        match parseF fuel .term (advance st) with
        | .error e => .error e
        | .ok st1 => parseF fuel .addLoop (pushOp st1 .Sub)
      | _ => .ok st
    | .term =>
      match parseF fuel .factor st with
      | .error e => .error e
      | .ok st1 => parseF fuel .mulLoop st1
    | .mulLoop =>
      match current st with
      | .Mul =>
        match parseF fuel .factor (advance st) with
        | .error e => .error e
        | .ok st1 => parseF fuel .mulLoop (pushOp st1 .Mul)
      | .Div =>
        match parseF fuel .factor (advance st) with
        | .error e => .error e
        | .ok st1 => parseF fuel .mulLoop (pushOp st1 .Div)
      | _ => .ok st
    | .factor =>
      match current st with
      | .Num n => .ok (pushOp (advance st) (.Imm n))
      | .Ident name =>
        let st1 := advance st
        match findSym name st1.locals with
        | some sym => .ok (pushOp st1 (.Ld sym.offset))
        | none =>
          match findSym name st1.globals with
          | some sym => .ok (pushOp st1 (.Ld sym.offset))
          | none => .error ("Undefined variable: " ++ name)
      | .LParen =>
        match parseF fuel .assignment (advance st) with
        | .error e => .error e
        | .ok st1 => expect st1 .RParen
      | t => .error ("Unexpected token in factor: " ++ describe t)

/-- Fuel that is ample for every program considered here; `parse`'s
success results are fuel-independent (larger fuel gives the same
opcodes), and all fuel-generic facts below quantify over the fuel. -/
def fuelFor (ts : List Token) : Nat := (ts.length + 1) * (ts.length + 1)

/-- `parser::parse`: a fresh `Parser` value is built from the tokens and
consumed; the opcode vector is returned on success. -/
def parse (ts : List Token) : Except String (List Opcode) :=
  match parseF (fuelFor ts) .programLoop (initState ts) with
  | .error e => .error e
  | .ok st => .ok st.opcodes

/-- One iteration of the `vm::execute` dispatch loop of the base
variant.  The stack is bottom-first (`Vec` order): push/pop at the
end, `Ld`/`St` index from the front. -/
def step (code : List Opcode) (stack : List Int) (pc : Int) : StepRes Int :=
  match code.get? (asUsize pc) with
  | none => .done (.error "No Ret opcode encountered")
  | some op =>
    match op with
    | .Imm n => .next (stack ++ [n]) (pc + 1)
    | .Ld offset =>
      if asUsize offset < stack.length then
        .next (stack ++ [stack.getD (asUsize offset) 0]) (pc + 1)
      else .done (.error "Invalid local offset in Ld")
    | .St offset =>
      match stack.getLast? with
      | some v =>
        let s := stack.dropLast
        if asUsize offset < s.length then
          .next (s.set (asUsize offset) v) (pc + 1)
        else .done (.error "Invalid local offset in St")
      | none => .done (.error "Stack underflow in St")
    | .Add =>
      if stack.length < 2 then .done (.error "Stack underflow in Add")
      else
        match stack.getLast?, stack.dropLast.getLast? with
        | some b, some a => .next (stack.dropLast.dropLast ++ [a + b]) (pc + 1)
        | _, _ => .done (.error "Stack underflow in Add")
    | .Sub =>
      if stack.length < 2 then .done (.error "Stack underflow in Sub")
      else
        match stack.getLast?, stack.dropLast.getLast? with
        | some b, some a => .next (stack.dropLast.dropLast ++ [a - b]) (pc + 1)
        | _, _ => .done (.error "Stack underflow in Sub")
    | .Mul =>
      if stack.length < 2 then .done (.error "Stack underflow in Mul")
      else
        match stack.getLast?, stack.dropLast.getLast? with
        | some b, some a => .next (stack.dropLast.dropLast ++ [a * b]) (pc + 1)
        | _, _ => .done (.error "Stack underflow in Mul")
    | .Div =>
      -- the length check comes first, then `b` is popped and tested
      -- against zero BEFORE `a` is popped and the division performed
      if stack.length < 2 then .done (.error "Stack underflow in Div")
      else
        match stack.getLast? with
        | none => .done (.error "Stack underflow in Div")
        | some b =>
          if b = 0 then .done (.error "Division by zero")
          else
            match stack.dropLast.getLast? with
            | none => .done (.error "Stack underflow in Div")
            | some a =>
              -- Rust `i64` division truncates toward zero
              .next (stack.dropLast.dropLast ++ [Int.tdiv a b]) (pc + 1)
    | .Jmp addr => .next stack addr
    | .Jz addr =>
      match stack.getLast? with
      | some top => if top = 0 then .next stack addr else .next stack (pc + 1)
      | none => .done (.error "Stack underflow in Jz")
    | .Ret =>
      match stack.getLast? with
      | some result => .done (.ok result)
      | none => .done (.error "Stack underflow in Ret")

/-- The `while (pc as usize) < opcodes.len()` loop of `vm::execute`. -/
def execLoop (code : List Opcode) : Nat → List Int → Int → ExecOut Int
  | 0, _, _ => .fuelOut
  | fuel+1, stack, pc =>
    match step code stack pc with
    | .done (.ok v) => .ok v
    | .done (.error e) => .err e
    | .next s p => execLoop code fuel s p

/-- `vm::execute` of the base variant: the stack is pre-sized to 32
zero slots (`stack.resize(32, 0)`), the frame for local variables. -/
def execute (fuel : Nat) (code : List Opcode) : Except String Int :=
  match execLoop code fuel (List.replicate 32 0) 0 with
  | .ok v => .ok v
  | .err e => .error e
  | .fuelOut => .error "vm fuel exhausted"

/-- The full pipeline of `main`: tokenize, parse, execute. -/
def run (fuel : Nat) (src : String) : Except String Int :=
  match tokenize src with
  | .error e => .error e
  | .ok ts =>
    match parse ts with
    | .error e => .error e
    | .ok ops => execute fuel ops

end Base

namespace Bonus

/-- `lexer::Token` of the bonus variant: as in the base variant plus a
float literal (modelled as an exact rational). -/
inductive Token where
  | Int
  | Char
  | Return
  | If
  | Else
  | While
  | Ident (s : String)
  | Num (n : Int)
  | Float (q : Rat)
  | Plus
  | Minus
  | Mul
  | Div
  | Assign
  | Eq
  | Ne
  | Lt
  | Gt
  | Le
  | Ge
  | Semicolon
  | Comma
  | LParen
  | RParen
  | LBrace
  | RBrace
  | EOF
  deriving DecidableEq, Repr

/-- Rust `{:?}` rendering of a bonus token, used in parser error
messages. -/
def describe : Token → String
  | .Int => "Int"
  | .Char => "Char"
  | .Return => "Return"
  | .If => "If"
  | .Else => "Else"
  | .While => "While"
  | .Ident s => "Ident(\"" ++ s ++ "\")"
  | .Num n => "Num(" ++ toString n ++ ")"
  | .Float q => "Float(" ++ toString q ++ ")"
  | .Plus => "Plus"
  | .Minus => "Minus"
  | .Mul => "Mul"
  | .Div => "Div"
  | .Assign => "Assign"
  | .Eq => "Eq"
  | .Ne => "Ne"
  | .Lt => "Lt"
  | .Gt => "Gt"
  | .Le => "Le"
  | .Ge => "Ge"
  | .Semicolon => "Semicolon"
  | .Comma => "Comma"
  | .LParen => "LParen"
  | .RParen => "RParen"
  | .LBrace => "LBrace"
  | .RBrace => "RBrace"
  | .EOF => "EOF"

/-- Fractional value of a digit run `ds` after the decimal point:
`natOfDigits ds / 10 ^ ds.length` (the bonus lexer's `f64` parse,
modelled exactly). -/
def fracOfDigits (ds : List Char) : Rat :=
  (Base.natOfDigits ds : Rat) / ((10 : Rat) ^ ds.length)

/-- The scanning loop of the bonus `lexer::tokenize`: as in the base
variant, except that a digit run immediately followed by `.` and a
second digit run becomes a float literal. -/
def tokLoop : Nat → List Char → List Token → Except String (List Token)
  | 0, _, _ => .error "lexer fuel exhausted"
  | _fuel+1, [], acc => .ok (acc ++ [Token.EOF])
  | fuel+1, c :: cs, acc =>
    if Base.isWs c then tokLoop fuel cs acc
    else if Base.isDigitC c then
      let ds := (c :: cs).takeWhile Base.isDigitC
      let rest := (c :: cs).dropWhile Base.isDigitC
      match rest with
      | '.' :: rest2 =>
        let fs := rest2.takeWhile Base.isDigitC
        let rest3 := rest2.dropWhile Base.isDigitC
        tokLoop fuel rest3
          (acc ++ [Token.Float ((Base.natOfDigits ds : Rat) + fracOfDigits fs)])
      | _ =>
        let n := Base.natOfDigits ds
        if n ≤ 2^63 - 1 then tokLoop fuel rest (acc ++ [Token.Num (n : Int)])
        else .error "number too large to fit in target type"
    else if Base.isIdentStart c then
      let ds := (c :: cs).takeWhile Base.isIdentCont
      let rest := (c :: cs).dropWhile Base.isIdentCont
      let s := String.mk ds
      let t : Token :=
        if s = "int" then .Int
        else if s = "char" then .Char
        else if s = "return" then .Return
        else if s = "if" then .If
        else if s = "else" then .Else
        else if s = "while" then .While
        else .Ident s
      tokLoop fuel rest (acc ++ [t])
    else if c = '+' then tokLoop fuel cs (acc ++ [Token.Plus])
    else if c = '-' then tokLoop fuel cs (acc ++ [Token.Minus])
    else if c = '*' then tokLoop fuel cs (acc ++ [Token.Mul])
    else if c = '/' then
      match cs with
      | '/' :: cs2 => tokLoop fuel (cs2.dropWhile (fun d => d ≠ '\n')) acc
      | _ => tokLoop fuel cs (acc ++ [Token.Div])
    else if c = '=' then
      match cs with
      | '=' :: cs2 => tokLoop fuel cs2 (acc ++ [Token.Eq])
      | _ => tokLoop fuel cs (acc ++ [Token.Assign])
    else if c = '!' then
      match cs with
      | '=' :: cs2 => tokLoop fuel cs2 (acc ++ [Token.Ne])
      | _ => .error "Unexpected \x27!\x27"
    else if c = '<' then
      match cs with
      | '=' :: cs2 => tokLoop fuel cs2 (acc ++ [Token.Le])
      | _ => tokLoop fuel cs (acc ++ [Token.Lt])
    else if c = '>' then
      match cs with
      | '=' :: cs2 => tokLoop fuel cs2 (acc ++ [Token.Ge])
      | _ => tokLoop fuel cs (acc ++ [Token.Gt])
    else if c = ';' then tokLoop fuel cs (acc ++ [Token.Semicolon])
    else if c = ',' then tokLoop fuel cs (acc ++ [Token.Comma])
    else if c = '(' then tokLoop fuel cs (acc ++ [Token.LParen])
    else if c = ')' then tokLoop fuel cs (acc ++ [Token.RParen])
    else if c = '\x7b' then tokLoop fuel cs (acc ++ [Token.LBrace])
    else if c = '\x7d' then tokLoop fuel cs (acc ++ [Token.RBrace])
    else .error ("Unexpected character: " ++ String.mk [c])

/-- `lexer::tokenize` of the bonus variant. -/
def tokenize (source : String) : Except String (List Token) :=
  tokLoop (source.data.length + 1) source.data []

/-- `vm::Value` of the bonus variant (floats as exact rationals). -/
inductive Value where
  | Int (n : Int)
  | Float (q : Rat)
  deriving DecidableEq, Repr

/-- The zero test of the bonus VM: the `Value::Int(0) | Value::Float(0.0)`
pattern of `Div`, and the zero test of `Jz`.  (In Rust the float
pattern `0.0` also matches `-0.0`; both are the rational `0`.) -/
def isZeroVal : Value → Bool
  | .Int n => n = 0
  | .Float q => q = 0

/-- `vm::Opcode` of the bonus variant: separate integer and float
immediates. -/
inductive Opcode where
  | IImm (n : Int)
  | FImm (q : Rat)
  | Ld (offset : Int)
  | St (offset : Int)
  | Add
  | Sub
  | Mul
  | Div
  | Jmp (addr : Int)
  | Jz (addr : Int)
  | Ret
  deriving DecidableEq, Repr

/-- The fields of the bonus `parser::Parser` (same structure as the
base variant, over the bonus token and opcode vocabularies). -/
structure PState where
  tokens : List Token
  pos : Nat
  opcodes : List Opcode
  globals : List (String × Base.Symbol)
  locals : List (String × Base.Symbol)
  localOffset : Int
  deriving Repr

/-- `Parser::new` of the bonus variant. -/
def initState (ts : List Token) : PState :=
  { tokens := ts, pos := 0, opcodes := [], globals := [], locals := [],
    localOffset := 0 }

/-- `Parser::current` of the bonus variant. -/
def current (st : PState) : Token := st.tokens.getD st.pos Token.EOF

/-- `self.pos += 1`. -/
def advance (st : PState) : PState := { st with pos := st.pos + 1 }

/-- `self.opcodes.push(op)`. -/
def pushOp (st : PState) (op : Opcode) : PState :=
  { st with opcodes := st.opcodes ++ [op] }

/-- `self.opcodes[i] = op` (backpatching). -/
def setOp (st : PState) (i : Nat) (op : Opcode) : PState :=
  { st with opcodes := st.opcodes.set i op }

/-- `Parser::expect` of the bonus variant. -/
def expect (st : PState) (t : Token) : Except String PState :=
  if current st = t then .ok (advance st)
  else .error ("Expected " ++ describe t ++ ", found " ++ describe (current st))

/-- The recursive-descent parser of the bonus variant.  Identical in
structure to `Base.parseF` except that:
- at top level `parse_program` matches `Token::Int | Token::Char`;
- `parse_stmt` dispatches `Token::Int | Token::Char` to the local
  declaration;
- `parse_factor` also accepts a float literal, emitting `FImm`. -/
def parseF : Nat → Call → PState → Except String PState
  | 0, _, _ => .error "parser fuel exhausted"
  | fuel+1, c, st =>
    match c with
    | .programLoop =>
      if current st = Token.EOF then .ok st
      else
        match current st with
        | .Int => parseF fuel .globalItem (advance st)
        | .Char => parseF fuel .globalItem (advance st)
        | t => .error ("Unexpected token at global scope: " ++ describe t)
    | .globalItem =>
      match current st with
      | .Ident name =>
        let st1 := advance st
        if current st1 = Token.LParen then
          let st2 := advance st1
          if name = "main" then
            match expect st2 .RParen with
            | .error e => .error e
            | .ok st3 =>
              match expect st3 .LBrace with
              | .error e => .error e
              | .ok st4 =>
                let st5 := { st4 with locals := [], localOffset := 0 }
                match parseF fuel .stmts st5 with
                | .error e => .error e
                | .ok st6 =>
                  match expect st6 .RBrace with
                  | .error e => .error e
                  | .ok st7 => parseF fuel .programLoop (pushOp st7 .Ret)
          else .error "Only main function is supported"
        else
          let st2 :=
            { st1 with
              globals := Base.insertSym st1.globals name
                (Base.Symbol.mk name .Global 0) }
          match parseF fuel .skipDecl st2 with
          | .error e => .error e
          | .ok st3 =>
            match expect st3 .Semicolon with
            | .error e => .error e
            | .ok st4 => parseF fuel .programLoop st4
      | _ => .error "Expected identifier after type"
    | .skipDecl =>
      if current st = Token.Semicolon then .ok st
      else if current st = Token.EOF then .ok st
      else parseF fuel .skipDecl (advance st)
    | .stmts =>
      if current st = Token.RBrace then .ok st
      else
        match parseF fuel .stmt st with
        | .error e => .error e
        | .ok st1 => parseF fuel .stmts st1
    | .stmt =>
      match current st with
      | .Return =>
        let st1 := advance st
        match parseF fuel .assignment st1 with
        | .error e => .error e
        | .ok st2 =>
          match expect st2 .Semicolon with
          | .error e => .error e
          | .ok st3 => .ok (pushOp st3 .Ret)
      | .If => parseF fuel .ifS st
      | .While => parseF fuel .whileS st
      | .LBrace =>
        let st1 := advance st
        match parseF fuel .stmts st1 with
        | .error e => .error e
        | .ok st2 => expect st2 .RBrace
      | .Int => parseF fuel .localLoop (advance st)
      | .Char => parseF fuel .localLoop (advance st)
      | _ =>
        match parseF fuel .assignment st with
        | .error e => .error e
        | .ok st1 => expect st1 .Semicolon
    | .ifS =>
      let st1 := advance st
      match expect st1 .LParen with
      | .error e => .error e
      | .ok st2 =>
        match parseF fuel .assignment st2 with
        | .error e => .error e
        | .ok st3 =>
          match expect st3 .RParen with
          | .error e => .error e
          | .ok st4 =>
            let jzIndex := st4.opcodes.length
            let st5 := pushOp st4 (.Jz 0)
            match parseF fuel .stmt st5 with
            | .error e => .error e
            | .ok st6 =>
              if current st6 = Token.Else then
                let st7 := advance st6
                let jmpIndex := st7.opcodes.length
                let st8 := pushOp st7 (.Jmp 0)
                let st9 := setOp st8 jzIndex (.Jz (st8.opcodes.length : Int))
                match parseF fuel .stmt st9 with
                | .error e => .error e
                | .ok st10 =>
                  .ok (setOp st10 jmpIndex (.Jmp (st10.opcodes.length : Int)))
              else
                .ok (setOp st6 jzIndex (.Jz (st6.opcodes.length : Int)))
    | .whileS =>
      let st1 := advance st
      let loopStart : Int := st1.opcodes.length
      match expect st1 .LParen with
      | .error e => .error e
      | .ok st2 =>
        match parseF fuel .assignment st2 with
        | .error e => .error e
        | .ok st3 =>
          match expect st3 .RParen with
          | .error e => .error e
          | .ok st4 =>
            let jzIndex := st4.opcodes.length
            let st5 := pushOp st4 (.Jz 0)
            match parseF fuel .stmt st5 with
            | .error e => .error e
            | .ok st6 =>
              let st7 := pushOp st6 (.Jmp loopStart)
              .ok (setOp st7 jzIndex (.Jz (st7.opcodes.length : Int)))
    | .localLoop =>
      match current st with
      | .Ident name =>
        let st1 := advance st
        let off := st1.localOffset + 1
        let st2 :=
          { st1 with
            localOffset := off,
            locals := Base.insertSym st1.locals name
              (Base.Symbol.mk name .Local off) }
        if current st2 = Token.Comma then parseF fuel .localLoop (advance st2)
        else expect st2 .Semicolon
      | _ => .error "Expected identifier in local declaration"
    | .assignment =>
      match current st with
      | .Ident name =>
        let st1 := advance st
        if current st1 = Token.Assign then
          let st2 := advance st1
          match parseF fuel .assignment st2 with
          | .error e => .error e
          | .ok st3 =>
            match Base.findSym name st3.locals with
            | some sym => .ok (pushOp st3 (.St sym.offset))
            | none =>
              match Base.findSym name st3.globals with
              | some sym => .ok (pushOp st3 (.St sym.offset))
              | none => .error ("Undefined variable: " ++ name)
        else parseF fuel .additive st
      | _ => parseF fuel .additive st
    | .additive =>
      match parseF fuel .term st with
      | .error e => .error e
      | .ok st1 => parseF fuel .addLoop st1
    | .addLoop =>
      match current st with
      | .Plus =>
        match parseF fuel .term (advance st) with
        | .error e => .error e
        | .ok st1 => parseF fuel .addLoop (pushOp st1 .Add)
      | .Minus =>
        match parseF fuel .term (advance st) with
        | .error e => .error e
        | .ok st1 => parseF fuel .addLoop (pushOp st1 .Sub)
      | _ => .ok st
    | .term =>
      match parseF fuel .factor st with
      | .error e => .error e
      | .ok st1 => parseF fuel .mulLoop st1
    | .mulLoop =>
      match current st with
      | .Mul =>
        match parseF fuel .factor (advance st) with
        | .error e => .error e
        | .ok st1 => parseF fuel .mulLoop (pushOp st1 .Mul)
      | .Div =>
        match parseF fuel .factor (advance st) with
        | .error e => .error e
        | .ok st1 => parseF fuel .mulLoop (pushOp st1 .Div)
      | _ => .ok st
    | .factor =>
      match current st with
      | .Num n => .ok (pushOp (advance st) (.IImm n))
      | .Float q => .ok (pushOp (advance st) (.FImm q))
      | .Ident name =>
        let st1 := advance st
        match Base.findSym name st1.locals with
        | some sym => .ok (pushOp st1 (.Ld sym.offset))
        | none =>
          match Base.findSym name st1.globals with
          | some sym => .ok (pushOp st1 (.Ld sym.offset))
          | none => .error ("Undefined variable: " ++ name)
      | .LParen =>
        match parseF fuel .assignment (advance st) with
        | .error e => .error e
        | .ok st1 => expect st1 .RParen
      | t => .error ("Unexpected token in factor: " ++ describe t)

/-- Ample fuel, as in the base variant. -/
def fuelFor (ts : List Token) : Nat := (ts.length + 1) * (ts.length + 1)

/-- `parser::parse` of the bonus variant. -/
def parse (ts : List Token) : Except String (List Opcode) :=
  match parseF (fuelFor ts) .programLoop (initState ts) with
  | .error e => .error e
  | .ok st => .ok st.opcodes

/-- One iteration of the bonus `vm::execute` dispatch loop. -/
def step (code : List Opcode) (stack : List Value) (pc : Int) :
    StepRes Value :=
  match code.get? (asUsize pc) with
  | none => .done (.error "No Ret opcode encountered")
  | some op =>
    match op with
    | .IImm n => .next (stack ++ [Value.Int n]) (pc + 1)
    | .FImm q => .next (stack ++ [Value.Float q]) (pc + 1)
    | .Ld offset =>
      if asUsize offset < stack.length then
        .next (stack ++ [stack.getD (asUsize offset) (Value.Int 0)]) (pc + 1)
      else .done (.error "Invalid local offset in Ld")
    | .St offset =>
      match stack.getLast? with
      | some v =>
        let s := stack.dropLast
        if asUsize offset < s.length then
          .next (s.set (asUsize offset) v) (pc + 1)
        else .done (.error "Invalid local offset in St")
      | none => .done (.error "Stack underflow in St")
    | .Add =>
      if stack.length < 2 then .done (.error "Stack underflow in Add")
      else
        match stack.getLast?, stack.dropLast.getLast? with
        | some b, some a =>
          match a, b with
          | .Int x, .Int y =>
            .next (stack.dropLast.dropLast ++ [Value.Int (x + y)]) (pc + 1)
          | .Float x, .Float y =>
            .next (stack.dropLast.dropLast ++ [Value.Float (x + y)]) (pc + 1)
          | _, _ => .done (.error "Type mismatch in Add")
        | _, _ => .done (.error "Stack underflow in Add")
    | .Sub =>
      if stack.length < 2 then .done (.error "Stack underflow in Sub")
      else
        match stack.getLast?, stack.dropLast.getLast? with
        | some b, some a =>
          match a, b with
          | .Int x, .Int y =>
            .next (stack.dropLast.dropLast ++ [Value.Int (x - y)]) (pc + 1)
          | .Float x, .Float y =>
            .next (stack.dropLast.dropLast ++ [Value.Float (x - y)]) (pc + 1)
          | _, _ => .done (.error "Type mismatch in Sub")
        | _, _ => .done (.error "Stack underflow in Sub")
    | .Mul =>
      if stack.length < 2 then .done (.error "Stack underflow in Mul")
      else
        match stack.getLast?, stack.dropLast.getLast? with
        | some b, some a =>
          match a, b with
          | .Int x, .Int y =>
            .next (stack.dropLast.dropLast ++ [Value.Int (x * y)]) (pc + 1)
          | .Float x, .Float y =>
            .next (stack.dropLast.dropLast ++ [Value.Float (x * y)]) (pc + 1)
          | _, _ => .done (.error "Type mismatch in Mul")
        | _, _ => .done (.error "Stack underflow in Mul")
    | .Div =>
      -- the length check comes first; then `b` is popped and matched
      -- against the zero of its type BEFORE `a` is popped and the
      -- division performed
      if stack.length < 2 then .done (.error "Stack underflow in Div")
      else
        match stack.getLast? with
        | none => .done (.error "Stack underflow in Div")
        | some b =>
          if isZeroVal b then .done (.error "Division by zero")
          else
            match stack.dropLast.getLast? with
            | none => .done (.error "Stack underflow in Div")
            | some a =>
              match a, b with
              | .Int x, .Int y =>
                .next (stack.dropLast.dropLast ++ [Value.Int (Int.tdiv x y)])
                  (pc + 1)
              | .Float x, .Float y =>
                .next (stack.dropLast.dropLast ++ [Value.Float (x / y)]) (pc + 1)
              | _, _ => .done (.error "Type mismatch in Div")
    | .Jmp addr => .next stack addr
    | .Jz addr =>
      match stack.getLast? with
      | some top =>
        if isZeroVal top then .next stack addr else .next stack (pc + 1)
      | none => .done (.error "Stack underflow in Jz")
    | .Ret =>
      match stack.getLast? with
      | some result => .done (.ok result)
      | none => .done (.error "Stack underflow in Ret")

/-- The dispatch loop of the bonus `vm::execute`. -/
def execLoop (code : List Opcode) : Nat → List Value → Int → ExecOut Value
  | 0, _, _ => .fuelOut
  | fuel+1, stack, pc =>
    match step code stack pc with
    | .done (.ok v) => .ok v
    | .done (.error e) => .err e
    | .next s p => execLoop code fuel s p

/-- The bonus `vm::execute`: note the stack starts EMPTY — unlike the
base variant there is no `stack.resize(32, 0)` frame reservation. -/
def execute (fuel : Nat) (code : List Opcode) : Except String Value :=
  match execLoop code fuel [] 0 with
  | .ok v => .ok v
  | .err e => .error e
  | .fuelOut => .error "vm fuel exhausted"

/-- The full bonus pipeline: tokenize, parse, execute. -/
def run (fuel : Nat) (src : String) : Except String Value :=
  match tokenize src with
  | .error e => .error e
  | .ok ts =>
    match parse ts with
    | .error e => .error e
    | .ok ops => execute fuel ops

end Bonus

/-- Decidable equality on `Except`, used to evaluate pipeline results on
concrete programs. -/
instance {ε α : Type} [DecidableEq ε] [DecidableEq α] :
    DecidableEq (Except ε α) := fun x y =>
  match x, y with
  | .ok a, .ok b =>
    if h : a = b then .isTrue (by rw [h])
    else .isFalse (by intro hh; cases hh; exact h rfl)
  | .error a, .error b =>
    if h : a = b then .isTrue (by rw [h])
    else .isFalse (by intro hh; cases hh; exact h rfl)
  | .ok _, .error _ => .isFalse (by intro hh; cases hh)
  | .error _, .ok _ => .isFalse (by intro hh; cases hh)

/-- The base VM loop is fuel-monotone: any outcome other than fuel
exhaustion is stable under extra fuel. -/
theorem base_execLoop_mono (code : List Base.Opcode) :
    ∀ fuel fuel' stack pc r, fuel ≤ fuel' →
      Base.execLoop code fuel stack pc = r → r ≠ ExecOut.fuelOut →
      Base.execLoop code fuel' stack pc = r := by
  intro fuel
  induction fuel with
  | zero =>
    intro fuel' stack pc r _ h hne
    simp only [Base.execLoop] at h
    exact absurd h.symm hne
  | succ f ih =>
    intro fuel' stack pc r hle h hne
    cases fuel' with
    | zero => exact absurd hle (by omega)
    | succ f' =>
      have hle' : f ≤ f' := by omega
      simp only [Base.execLoop] at h ⊢
      cases hs : Base.step code stack pc with
      | done res =>
        rw [hs] at h
        cases res with
        | ok v => exact h
        | error e => exact h
      | next s p =>
        rw [hs] at h
        exact ih f' s p r hle' h hne

/-- Success of the full base pipeline is fuel-monotone. -/
theorem base_run_mono (f f' : Nat) (src : String) (v : Int)
    (hle : f ≤ f') (h : Base.run f src = .ok v) : Base.run f' src = .ok v := by
  unfold Base.run at h ⊢
  cases htok : Base.tokenize src with
  | error e => rw [htok] at h; exact absurd h (by intro hh; cases hh)
  | ok ts =>
    rw [htok] at h
    dsimp only at h ⊢
    cases hpar : Base.parse ts with
    | error e => rw [hpar] at h; exact absurd h (by intro hh; cases hh)
    | ok ops =>
      rw [hpar] at h
      dsimp only at h ⊢
      unfold Base.execute at h ⊢
      cases hex : Base.execLoop ops f (List.replicate 32 0) 0 with
      | ok w =>
        rw [hex] at h
        rw [base_execLoop_mono ops f f' _ 0 _ hle hex (by intro hh; cases hh)]
        exact h
      | err e => rw [hex] at h; exact absurd h (by intro hh; cases hh)
      | fuelOut => rw [hex] at h; exact absurd h (by intro hh; cases hh)

/-- The bonus VM loop is fuel-monotone. -/
theorem bonus_execLoop_mono (code : List Bonus.Opcode) :
    ∀ fuel fuel' stack pc r, fuel ≤ fuel' →
      Bonus.execLoop code fuel stack pc = r → r ≠ ExecOut.fuelOut →
      Bonus.execLoop code fuel' stack pc = r := by
  intro fuel
  induction fuel with
  | zero =>
    intro fuel' stack pc r _ h hne
    simp only [Bonus.execLoop] at h
    exact absurd h.symm hne
  | succ f ih =>
    intro fuel' stack pc r hle h hne
    cases fuel' with
    | zero => exact absurd hle (by omega)
    | succ f' =>
      have hle' : f ≤ f' := by omega
      simp only [Bonus.execLoop] at h ⊢
      cases hs : Bonus.step code stack pc with
      | done res =>
        rw [hs] at h
        cases res with
        | ok v => exact h
        | error e => exact h
      | next s p =>
        rw [hs] at h
        exact ih f' s p r hle' h hne

/-- Success of the full bonus pipeline is fuel-monotone. -/
theorem bonus_run_mono (f f' : Nat) (src : String) (v : Bonus.Value)
    (hle : f ≤ f') (h : Bonus.run f src = .ok v) : Bonus.run f' src = .ok v := by
  unfold Bonus.run at h ⊢
  cases htok : Bonus.tokenize src with
  | error e => rw [htok] at h; exact absurd h (by intro hh; cases hh)
  | ok ts =>
    rw [htok] at h
    dsimp only at h ⊢
    cases hpar : Bonus.parse ts with
    | error e => rw [hpar] at h; exact absurd h (by intro hh; cases hh)
    | ok ops =>
      rw [hpar] at h
      dsimp only at h ⊢
      unfold Bonus.execute at h ⊢
      cases hex : Bonus.execLoop ops f [] 0 with
      | ok w =>
        rw [hex] at h
        rw [bonus_execLoop_mono ops f f' _ 0 _ hle hex (by intro hh; cases hh)]
        exact h
      | err e => rw [hex] at h; exact absurd h (by intro hh; cases hh)
      | fuelOut => rw [hex] at h; exact absurd h (by intro hh; cases hh)

/-- The arithmetic-precedence program of the spec (§8) and of the test
`test_complex_expression`. -/
def srcPrecedence : String := "int main()\x7b return 2 + 3 * 4 - 6 / 2; \x7d"

/-- The assignment-and-sequencing program of the spec (§8) and of the
test `test_multiple_variables`. -/
def srcLocals : String := "int main()\x7b int a,b; a=5; b=10; return a+b; \x7d"

/-- A `main` that falls through without any `return` statement. -/
def srcEmptyMain : String := "int main()\x7b\x7d"

/-- A `main` that falls through after an expression statement whose
value stays on the stack. -/
def srcExprMain : String := "int main()\x7b 5; \x7d"

/-- Two globals written then one read back. -/
def srcGlobals : String :=
  "int g; int h; int main()\x7b g=1; h=2; return g; \x7d"

/-- A `char` global declaration ahead of `main`. -/
def srcCharGlobal : String := "char x; int main()\x7b return 0; \x7d"

/-- The same program with `int` in place of `char`. -/
def srcIntGlobal : String := "int x; int main()\x7b return 0; \x7d"

/-- C1 counterexample: on the base pipeline the precedence program
evaluates to 11 (= 2 + 3*4 - 6/2 = 2 + 12 - 3), not to the 5 stated by
the claim.  (The code's own test asserts `2 + 3 * 4 - 6 / 2`, which is
11 in Rust as well.) -/
theorem c1_counterexample :
    Base.run 50 srcPrecedence = .ok 11 ∧ Base.run 50 srcPrecedence ≠ .ok 5 :=
  ⟨by rfl, by decide⟩

/-- C1 (amended): for the source program
`int main(){ return 2 + 3 * 4 - 6 / 2; }`, running the full base
pipeline (tokenize, then parse, then execute) yields the result 11
(= 2 + 12 - 3), with multiplication and division binding tighter than
addition and subtraction. -/
theorem c1_precedence_amended :
    ∀ fuel, 50 ≤ fuel → Base.run fuel srcPrecedence = .ok 11 :=
  fun f h => base_run_mono 50 f srcPrecedence 11 h (by rfl)

/-- C1 witness: the amended theorem instantiated at fuel 50. -/
theorem c1_witness : 50 ≤ 50 ∧ Base.run 50 srcPrecedence = .ok 11 :=
  ⟨by decide, c1_precedence_amended 50 (by decide)⟩

/-- C2: for `int main(){ int a,b; a=5; b=10; return a+b; }` the base
pipeline yields 15, each assignment storing into the declared local's
pre-reserved stack slot; but the bonus pipeline, whose executor
reserves no frame (`execute` starts with an empty stack), fails at the
first store with the runtime error "Invalid local offset in St" —
which also makes the bonus variant's own bundled local-variable test
fail, so the missing frame reservation contradicts the program's own
tests. -/
theorem c2_locals_frame :
    (∀ fuel, 50 ≤ fuel → Base.run fuel srcLocals = .ok 15)
    ∧ Bonus.run 50 srcLocals = .error "Invalid local offset in St" :=
  ⟨fun f h => base_run_mono 50 f srcLocals 15 h (by rfl), by rfl⟩

/-- C2 witness: both conjuncts at fuel 50. -/
theorem c2_witness :
    Base.run 50 srcLocals = .ok 15
    ∧ Bonus.run 50 srcLocals = .error "Invalid local offset in St" :=
  ⟨c2_locals_frame.1 50 (by decide), c2_locals_frame.2⟩

/-- C9 counterexample: not every fall-through `main` yields 0.  In
`int main(){ 5; }` the body falls through without a `return`
statement, yet the base run yields 5, not 0: the expression
statement's value 5 remains on the stack above the 32-slot frame, and
the implicit `Ret` pops it. -/
theorem c9_counterexample :
    Base.run 3 srcExprMain = .ok 5 ∧ Base.run 3 srcExprMain ≠ .ok 0 :=
  ⟨by rfl, by decide⟩

/-- C9 (amended): in the base variant a `main` that falls through
without a `return` statement still executes successfully — the
implicit `Ret` appended by the parser pops the topmost stack value
instead of underflowing, thanks to the 32 zero-initialized frame
slots — and the result is 0 when nothing was left on the stack above
the frame: `int main(){}` parses to exactly `[Ret]` and evaluates to
`Ok 0`.  When an expression statement leaves a stray value above the
frame, the implicit `Ret` pops that value instead:
`int main(){ 5; }` evaluates to `Ok 5`. -/
theorem c9_implicit_return :
    ((Base.tokenize srcEmptyMain).bind Base.parse = .ok [Base.Opcode.Ret])
    ∧ (∀ fuel, 2 ≤ fuel → Base.run fuel srcEmptyMain = .ok 0)
    ∧ ((Base.tokenize srcExprMain).bind Base.parse =
        .ok [Base.Opcode.Imm 5, Base.Opcode.Ret])
    ∧ (∀ fuel, 3 ≤ fuel → Base.run fuel srcExprMain = .ok 5) :=
  ⟨by rfl, fun f h => base_run_mono 2 f srcEmptyMain 0 h (by rfl),
   by rfl, fun f h => base_run_mono 3 f srcExprMain 5 h (by rfl)⟩

/-- C9 witness: the fuel-generic conjuncts instantiated at fuels 2
and 3. -/
theorem c9_witness :
    (2 ≤ 2 ∧ Base.run 2 srcEmptyMain = .ok 0)
    ∧ (3 ≤ 3 ∧ Base.run 3 srcExprMain = .ok 5) :=
  ⟨⟨by decide, c9_implicit_return.2.1 2 (by decide)⟩,
   ⟨by decide, c9_implicit_return.2.2.2 3 (by decide)⟩⟩

/-- In the base parser, a top-level `int` dispatches to the
global-item continuation (type keyword consumed). -/
theorem base_dispatch_int :
    ∀ fuel st, Base.current st = Base.Token.Int →
      Base.parseF (fuel+1) .programLoop st =
        Base.parseF fuel .globalItem (Base.advance st) := by
  intro fuel st h
  conv_lhs => rw [Base.parseF]
  rw [h]
  rfl

/-- In the bonus parser, a top-level `int` dispatches to the
global-item continuation. -/
theorem bonus_dispatch_int :
    ∀ fuel st, Bonus.current st = Bonus.Token.Int →
      Bonus.parseF (fuel+1) .programLoop st =
        Bonus.parseF fuel .globalItem (Bonus.advance st) := by
  intro fuel st h
  conv_lhs => rw [Bonus.parseF]
  rw [h]
  rfl

/-- In the bonus parser, a top-level `char` dispatches to the SAME
global-item continuation as `int` (`Token::Int | Token::Char` is a
single match arm in the Rust source). -/
theorem bonus_dispatch_char :
    ∀ fuel st, Bonus.current st = Bonus.Token.Char →
      Bonus.parseF (fuel+1) .programLoop st =
        Bonus.parseF fuel .globalItem (Bonus.advance st) := by
  intro fuel st h
  conv_lhs => rw [Bonus.parseF]
  rw [h]
  rfl

/-- C3 counterexample: the base parser does NOT accept a top-level
`char` declaration — `parse_program` of the base variant matches only
`Token::Int`, so `char x; int main(){ return 0; }` fails to parse
(and therefore the whole pipeline errors) instead of being accepted. -/
theorem c3_counterexample :
    Base.run 50 srcCharGlobal =
      .error "Unexpected token at global scope: Char" := by rfl

/-- C3 (amended): only the bonus variant treats a top-level `char`
exactly as `int`: its `parse_program` dispatches `Token::Int` and
`Token::Char` to the same continuation (the global-item branch), so
the bonus pipeline accepts `char` global declarations, and replacing
`char` by `int` in the declaration yields the identical instruction
sequence; the base variant instead rejects any top-level `char` with a
parse error (see the counterexample). -/
theorem c3_char_global_amended :
    (∀ fuel st, Bonus.current st = Bonus.Token.Char →
      Bonus.parseF (fuel+1) .programLoop st =
        Bonus.parseF fuel .globalItem (Bonus.advance st))
    ∧ (∀ fuel st, Bonus.current st = Bonus.Token.Int →
      Bonus.parseF (fuel+1) .programLoop st =
        Bonus.parseF fuel .globalItem (Bonus.advance st))
    ∧ ((Bonus.tokenize srcCharGlobal).bind Bonus.parse =
        (Bonus.tokenize srcIntGlobal).bind Bonus.parse)
    ∧ (∀ fuel, 2 ≤ fuel →
        Bonus.run fuel srcCharGlobal = .ok (Bonus.Value.Int 0)) := by
  exact ⟨bonus_dispatch_char, bonus_dispatch_int, by decide,
    fun f h =>
      bonus_run_mono 2 f srcCharGlobal (Bonus.Value.Int 0) h (by rfl)⟩

/-- C3 witness: the dispatch equations applied at concrete states whose
current token is `char` (resp. `int`), plus the concrete run. -/
theorem c3_witness :
    Bonus.parseF 1 .programLoop (Bonus.initState [Bonus.Token.Char]) =
      Bonus.parseF 0 .globalItem
        (Bonus.advance (Bonus.initState [Bonus.Token.Char]))
    ∧ Bonus.parseF 1 .programLoop (Bonus.initState [Bonus.Token.Int]) =
      Bonus.parseF 0 .globalItem
        (Bonus.advance (Bonus.initState [Bonus.Token.Int]))
    ∧ Bonus.run 2 srcCharGlobal = .ok (Bonus.Value.Int 0) :=
  ⟨c3_char_global_amended.1 0 _ (by rfl),
   c3_char_global_amended.2.1 0 _ (by rfl),
   c3_char_global_amended.2.2.2 2 (by decide)⟩

/-- C4: in either VM, whenever the dispatch loop reaches a `Div`
instruction with at least two values on the stack and the first-popped
(right) operand equal to the zero value of its type, the remainder of
the run returns exactly the runtime error "Division by zero": the zero
test precedes the division, so no division result is ever produced. -/
theorem c4_div_by_zero :
    (∀ (code : List Base.Opcode) (stack : List Int) (pc : Int) (fuel : Nat),
      code.get? (asUsize pc) = some Base.Opcode.Div →
      2 ≤ stack.length →
      stack.getLast? = some 0 →
      Base.execLoop code (fuel+1) stack pc = .err "Division by zero")
    ∧ (∀ (code : List Bonus.Opcode) (stack : List Bonus.Value) (pc : Int)
        (fuel : Nat) (b : Bonus.Value),
      code.get? (asUsize pc) = some Bonus.Opcode.Div →
      2 ≤ stack.length →
      stack.getLast? = some b →
      Bonus.isZeroVal b = true →
      Bonus.execLoop code (fuel+1) stack pc = .err "Division by zero") := by
  constructor
  · intro code stack pc fuel hcode hlen hlast
    have h2 : ¬ stack.length < 2 := by omega
    rw [List.get?_eq_getElem?] at hcode
    simp [Base.execLoop, Base.step, hcode, hlast, h2]
  · intro code stack pc fuel b hcode hlen hlast hzero
    have h2 : ¬ stack.length < 2 := by omega
    rw [List.get?_eq_getElem?] at hcode
    simp [Bonus.execLoop, Bonus.step, hcode, hlast, hzero, h2]

/-- C4 witness: a one-instruction program whose `Div` sees an integer
zero divisor (base VM), and one whose `Div` sees the float zero
divisor (bonus VM). -/
theorem c4_witness :
    Base.execLoop [Base.Opcode.Div] 1 [1, 0] 0 = .err "Division by zero"
    ∧ Bonus.execLoop [Bonus.Opcode.Div] 1
        [Bonus.Value.Float 1, Bonus.Value.Float 0] 0 =
        .err "Division by zero" :=
  ⟨c4_div_by_zero.1 [Base.Opcode.Div] [1, 0] 0 0 (by rfl) (by decide) (by rfl),
   c4_div_by_zero.2 [Bonus.Opcode.Div]
     [Bonus.Value.Float 1, Bonus.Value.Float 0] 0 0 (Bonus.Value.Float 0)
     (by rfl) (by decide) (by rfl) (by rfl)⟩

/-- C6: in either variant, when the top-level parse reaches a function
header — a type keyword, then an identifier, then `(` — whose name is
not exactly `main`, parsing stops with the error "Only main function
is supported"; since `parse` only returns the opcode vector on
success, no instruction sequence is produced for execution. -/
theorem c6_only_main :
    (∀ (fuel : Nat) (st : Base.PState) (name : String),
      Base.current st = Base.Token.Int →
      Base.current (Base.advance st) = Base.Token.Ident name →
      Base.current (Base.advance (Base.advance st)) = Base.Token.LParen →
      name ≠ "main" →
      Base.parseF (fuel+2) .programLoop st =
        .error "Only main function is supported")
    ∧ (∀ (fuel : Nat) (st : Bonus.PState) (name : String),
      (Bonus.current st = Bonus.Token.Int ∨
        Bonus.current st = Bonus.Token.Char) →
      Bonus.current (Bonus.advance st) = Bonus.Token.Ident name →
      Bonus.current (Bonus.advance (Bonus.advance st)) = Bonus.Token.LParen →
      name ≠ "main" →
      Bonus.parseF (fuel+2) .programLoop st =
        .error "Only main function is supported") := by
  constructor
  · intro fuel st name h1 h2 h3 hname
    rw [base_dispatch_int (fuel+1) st h1]
    conv_lhs => rw [Base.parseF]
    rw [h2]
    simp only [Base.advance] at h3 ⊢
    simp [h3, hname]
  · intro fuel st name h1 h2 h3 hname
    have hd : Bonus.parseF (fuel+2) .programLoop st =
        Bonus.parseF (fuel+1) .globalItem (Bonus.advance st) := by
      cases h1 with
      | inl h => exact bonus_dispatch_int (fuel+1) st h
      | inr h => exact bonus_dispatch_char (fuel+1) st h
    rw [hd]
    conv_lhs => rw [Bonus.parseF]
    rw [h2]
    simp only [Bonus.advance] at h3 ⊢
    simp [h3, hname]

/-- C6 witness: the concrete header `int foo(` at the start of the
token stream, in both variants. -/
theorem c6_witness :
    Base.parseF 2 .programLoop
      (Base.initState [Base.Token.Int, Base.Token.Ident "foo",
        Base.Token.LParen]) =
      .error "Only main function is supported"
    ∧ Bonus.parseF 2 .programLoop
      (Bonus.initState [Bonus.Token.Char, Bonus.Token.Ident "foo",
        Bonus.Token.LParen]) =
      .error "Only main function is supported" :=
  ⟨c6_only_main.1 0 _ "foo" (by rfl) (by rfl) (by rfl) (by decide),
   c6_only_main.2 0 _ "foo" (Or.inr (by rfl)) (by rfl) (by rfl) (by decide)⟩

/-- `expect` succeeds exactly by advancing the cursor. -/
theorem base_expect_ok {st st' : Base.PState} {t : Base.Token}
    (h : Base.expect st t = .ok st') : st' = Base.advance st := by
  unfold Base.expect at h
  split at h
  · injection h with h; exact h.symm
  · exact Except.noConfusion h

/-- The `Call` tags that model the Rust expression-parsing functions
(`parse_assignment` through `parse_factor`). -/
def exprCall : Call → Prop
  | .assignment => True
  | .additive => True
  | .addLoop => True
  | .term => True
  | .mulLoop => True
  | .factor => True
  | _ => False

/-- The expression-parsing functions never modify the symbol tables:
on success the local and global scopes are returned unchanged. -/
theorem base_parseF_scopes :
    ∀ fuel c st st', exprCall c → Base.parseF fuel c st = .ok st' →
      st'.locals = st.locals ∧ st'.globals = st.globals := by
  intro fuel
  induction fuel with
  | zero =>
    intro c st st' _ h
    exact Except.noConfusion h
  | succ f ih =>
    intro c st st' hexpr h
    rw [Base.parseF.eq_def] at h
    cases c
    case programLoop => exact hexpr.elim
    case globalItem => exact hexpr.elim
    case skipDecl => exact hexpr.elim
    case stmts => exact hexpr.elim
    case stmt => exact hexpr.elim
    case ifS => exact hexpr.elim
    case whileS => exact hexpr.elim
    case localLoop => exact hexpr.elim
    case assignment =>
      dsimp only at h
      cases hcur : Base.current st <;> rw [hcur] at h <;> (try dsimp only at h)
      case Ident name =>
        split at h
        · cases hrec : Base.parseF f .assignment
              (Base.advance (Base.advance st)) with
          | error e => rw [hrec] at h; exact Except.noConfusion h
          | ok st3 =>
            rw [hrec] at h
            dsimp only at h
            have hs := ih .assignment _ _ trivial hrec
            simp only [Base.advance] at hs
            cases hl : Base.findSym name st3.locals with
            | some sym =>
              rw [hl] at h
              cases h
              simpa [Base.pushOp] using hs
            | none =>
              rw [hl] at h
              dsimp only at h
              cases hg : Base.findSym name st3.globals with
              | some sym =>
                rw [hg] at h
                cases h
                simpa [Base.pushOp] using hs
              | none => rw [hg] at h; exact Except.noConfusion h
        · exact ih .additive _ _ trivial h
      all_goals exact ih .additive _ _ trivial h
    case additive =>
      dsimp only at h
      cases hrec : Base.parseF f .term st with
      | error e => rw [hrec] at h; exact Except.noConfusion h
      | ok st1 =>
        rw [hrec] at h
        dsimp only at h
        have h1 := ih .term _ _ trivial hrec
        have h2 := ih .addLoop _ _ trivial h
        exact ⟨h2.1.trans h1.1, h2.2.trans h1.2⟩
    case addLoop =>
      dsimp only at h
      cases hcur : Base.current st <;> rw [hcur] at h <;> (try dsimp only at h)
      case Plus =>
        cases hrec : Base.parseF f .term (Base.advance st) with
        | error e => rw [hrec] at h; exact Except.noConfusion h
        | ok st1 =>
          rw [hrec] at h
          dsimp only at h
          have h1 := ih .term _ _ trivial hrec
          have h2 := ih .addLoop _ _ trivial h
          simp only [Base.advance] at h1
          simp only [Base.pushOp] at h2
          exact ⟨h2.1.trans h1.1, h2.2.trans h1.2⟩
      case Minus =>
        cases hrec : Base.parseF f .term (Base.advance st) with
        | error e => rw [hrec] at h; exact Except.noConfusion h
        | ok st1 =>
          rw [hrec] at h
          dsimp only at h
          have h1 := ih .term _ _ trivial hrec
          have h2 := ih .addLoop _ _ trivial h
          simp only [Base.advance] at h1
          simp only [Base.pushOp] at h2
          exact ⟨h2.1.trans h1.1, h2.2.trans h1.2⟩
      all_goals (cases h; exact ⟨rfl, rfl⟩)
    case term =>
      dsimp only at h
      cases hrec : Base.parseF f .factor st with
      | error e => rw [hrec] at h; exact Except.noConfusion h
      | ok st1 =>
        rw [hrec] at h
        dsimp only at h
        have h1 := ih .factor _ _ trivial hrec
        have h2 := ih .mulLoop _ _ trivial h
        exact ⟨h2.1.trans h1.1, h2.2.trans h1.2⟩
    case mulLoop =>
      dsimp only at h
      cases hcur : Base.current st <;> rw [hcur] at h <;> (try dsimp only at h)
      case Mul =>
        cases hrec : Base.parseF f .factor (Base.advance st) with
        | error e => rw [hrec] at h; exact Except.noConfusion h
        | ok st1 =>
          rw [hrec] at h
          dsimp only at h
          have h1 := ih .factor _ _ trivial hrec
          have h2 := ih .mulLoop _ _ trivial h
          simp only [Base.advance] at h1
          simp only [Base.pushOp] at h2
          exact ⟨h2.1.trans h1.1, h2.2.trans h1.2⟩
      case Div =>
        cases hrec : Base.parseF f .factor (Base.advance st) with
        | error e => rw [hrec] at h; exact Except.noConfusion h
        | ok st1 =>
          rw [hrec] at h
          dsimp only at h
          have h1 := ih .factor _ _ trivial hrec
          have h2 := ih .mulLoop _ _ trivial h
          simp only [Base.advance] at h1
          simp only [Base.pushOp] at h2
          exact ⟨h2.1.trans h1.1, h2.2.trans h1.2⟩
      all_goals (cases h; exact ⟨rfl, rfl⟩)
    case factor =>
      dsimp only at h
      cases hcur : Base.current st <;> rw [hcur] at h <;> (try dsimp only at h)
      case Num n =>
        cases h
        simp [Base.pushOp, Base.advance]
      case Ident name =>
        cases hl : Base.findSym name (Base.advance st).locals with
        | some sym =>
          rw [hl] at h
          cases h
          simp [Base.pushOp, Base.advance]
        | none =>
          rw [hl] at h
          dsimp only at h
          cases hg : Base.findSym name (Base.advance st).globals with
          | some sym =>
            rw [hg] at h
            cases h
            simp [Base.pushOp, Base.advance]
          | none => rw [hg] at h; exact Except.noConfusion h
      case LParen =>
        cases hrec : Base.parseF f .assignment (Base.advance st) with
        | error e => rw [hrec] at h; exact Except.noConfusion h
        | ok st1 =>
          rw [hrec] at h
          dsimp only at h
          have hs := ih .assignment _ _ trivial hrec
          have he := base_expect_ok h
          subst he
          simp only [Base.advance] at hs ⊢
          exact hs
      all_goals exact Except.noConfusion h

/-- C5: referencing an identifier that is in neither the local nor the
global scope fails the parse.  As a load factor, `parse_factor` fails
with exactly "Undefined variable: <name>"; as the left-hand side of an
assignment, `parse_assignment` can never succeed (whatever happens
while parsing the right-hand side, the store lookup still fails,
because expression parsing never alters the scopes).  Since `parse`
only returns an instruction sequence on success, no instruction
sequence from such a program is ever executed. -/
theorem c5_undefined_variable :
    (∀ (fuel : Nat) (st : Base.PState) (name : String),
      Base.current st = Base.Token.Ident name →
      Base.findSym name st.locals = none →
      Base.findSym name st.globals = none →
      Base.parseF (fuel+1) .factor st =
        .error ("Undefined variable: " ++ name))
    ∧ (∀ (fuel : Nat) (st : Base.PState) (name : String) (st' : Base.PState),
      Base.current st = Base.Token.Ident name →
      Base.current (Base.advance st) = Base.Token.Assign →
      Base.findSym name st.locals = none →
      Base.findSym name st.globals = none →
      Base.parseF fuel .assignment st ≠ .ok st') := by
  constructor
  · intro fuel st name hcur hl hg
    conv_lhs => rw [Base.parseF]
    rw [hcur]
    simp only [Base.advance, hl, hg]
  · intro fuel st name st' hcur hassign hl hg
    cases fuel with
    | zero => intro h; exact Except.noConfusion h
    | succ f =>
      intro h
      rw [Base.parseF.eq_def] at h
      dsimp only at h
      rw [hcur] at h
      dsimp only at h
      rw [if_pos hassign] at h
      cases hrec : Base.parseF f .assignment (Base.advance (Base.advance st)) with
      | error e => rw [hrec] at h; exact Except.noConfusion h
      | ok st3 =>
        rw [hrec] at h
        dsimp only at h
        have hs := base_parseF_scopes f .assignment _ _ trivial hrec
        simp only [Base.advance] at hs
        rw [hs.1, hs.2, hl, hg] at h
        exact Except.noConfusion h

/-- C5 witness: the undefined load `x` as a factor, and the undefined
store `x = 1` as an assignment, both from a fresh parser state. -/
theorem c5_witness :
    Base.parseF 1 .factor (Base.initState [Base.Token.Ident "x"]) =
      .error ("Undefined variable: " ++ "x")
    ∧ Base.parseF 3 .assignment
        (Base.initState [Base.Token.Ident "x", Base.Token.Assign,
          Base.Token.Num 1]) ≠
      .ok (Base.initState []) :=
  ⟨c5_undefined_variable.1 0 _ "x" (by rfl) (by rfl) (by rfl),
   c5_undefined_variable.2 3 _ "x" _ (by rfl) (by rfl) (by rfl) (by rfl)⟩

/-- Inserting a fresh global (always with offset 0, as in
`parse_program`) preserves the all-globals-have-offset-0 invariant. -/
theorem gZero_insert {gs : List (String × Base.Symbol)} {name : String}
    (hpre : ∀ p ∈ gs, p.2.offset = 0) :
    ∀ p ∈ Base.insertSym gs name (Base.Symbol.mk name .Global 0),
      p.2.offset = 0 := by
  intro p hp
  rcases List.mem_cons.mp hp with h | h
  · subst h; rfl
  · exact hpre p h

/-- Every global symbol the base parser ever registers carries offset
0: the invariant "all globals have offset 0" is preserved by every
parsing function (the only insertion into the global scope is
`parse_program`'s, with offset 0). -/
theorem base_parseF_globals_zero :
    ∀ fuel c st st', Base.parseF fuel c st = .ok st' →
      (∀ p ∈ st.globals, p.2.offset = 0) →
      ∀ p ∈ st'.globals, p.2.offset = 0 := by
  intro fuel
  induction fuel with
  | zero =>
    intro c st st' h _
    exact Except.noConfusion h
  | succ f ih =>
    intro c st st' h hpre
    cases c
    case assignment =>
      intro p hp
      exact hpre p
        ((base_parseF_scopes (f+1) .assignment st st' trivial h).2 ▸ hp)
    case additive =>
      intro p hp
      exact hpre p
        ((base_parseF_scopes (f+1) .additive st st' trivial h).2 ▸ hp)
    case addLoop =>
      intro p hp
      exact hpre p
        ((base_parseF_scopes (f+1) .addLoop st st' trivial h).2 ▸ hp)
    case term =>
      intro p hp
      exact hpre p
        ((base_parseF_scopes (f+1) .term st st' trivial h).2 ▸ hp)
    case mulLoop =>
      intro p hp
      exact hpre p
        ((base_parseF_scopes (f+1) .mulLoop st st' trivial h).2 ▸ hp)
    case factor =>
      intro p hp
      exact hpre p
        ((base_parseF_scopes (f+1) .factor st st' trivial h).2 ▸ hp)
    case programLoop =>
      rw [Base.parseF.eq_def] at h
      dsimp only at h
      split at h
      · cases h; exact hpre
      · cases hcur : Base.current st <;> rw [hcur] at h <;>
          (try dsimp only at h)
        case Int => exact ih .globalItem _ _ h hpre
        all_goals exact Except.noConfusion h
    case globalItem =>
      rw [Base.parseF.eq_def] at h
      dsimp only at h
      cases hcur : Base.current st <;> rw [hcur] at h <;>
        (try dsimp only at h)
      case Ident name =>
        split at h
        · split at h
          · split at h
            · exact Except.noConfusion h
            rename_i st3 he1
            split at h
            · exact Except.noConfusion h
            rename_i st4 he2
            split at h
            · exact Except.noConfusion h
            rename_i st6 hrec1
            split at h
            · exact Except.noConfusion h
            rename_i st7 he3
            obtain rfl := base_expect_ok he1
            obtain rfl := base_expect_ok he2
            obtain rfl := base_expect_ok he3
            have hg1 := ih .stmts _ _ hrec1 hpre
            exact ih .programLoop _ _ h hg1
          · exact Except.noConfusion h
        · split at h
          · exact Except.noConfusion h
          rename_i st3 hrec
          split at h
          · exact Except.noConfusion h
          rename_i st4 he
          obtain rfl := base_expect_ok he
          have hg1 := ih .skipDecl _ _ hrec (gZero_insert hpre)
          exact ih .programLoop _ _ h hg1
      all_goals exact Except.noConfusion h
    case skipDecl =>
      rw [Base.parseF.eq_def] at h
      dsimp only at h
      split at h
      · cases h; exact hpre
      · split at h
        · cases h; exact hpre
        · exact ih .skipDecl _ _ h hpre
    case stmts =>
      rw [Base.parseF.eq_def] at h
      dsimp only at h
      split at h
      · cases h; exact hpre
      · split at h
        · exact Except.noConfusion h
        rename_i st1 hrec
        have hg1 := ih .stmt _ _ hrec hpre
        exact ih .stmts _ _ h hg1
    case stmt =>
      rw [Base.parseF.eq_def] at h
      dsimp only at h
      cases hcur : Base.current st <;> rw [hcur] at h <;>
        (try dsimp only at h)
      case Return =>
        split at h
        · exact Except.noConfusion h
        rename_i st2 hrec
        split at h
        · exact Except.noConfusion h
        rename_i st3 he
        cases h
        obtain rfl := base_expect_ok he
        have hg := ih .assignment _ _ hrec hpre
        exact hg
      case If => exact ih .ifS _ _ h hpre
      case While => exact ih .whileS _ _ h hpre
      case LBrace =>
        split at h
        · exact Except.noConfusion h
        rename_i st2 hrec
        obtain rfl := base_expect_ok h
        have hg := ih .stmts _ _ hrec hpre
        exact hg
      case Int => exact ih .localLoop _ _ h hpre
      all_goals
        (split at h
         · exact Except.noConfusion h
         rename_i st1 hrec
         obtain rfl := base_expect_ok h
         have hg := ih .assignment _ _ hrec hpre
         exact hg)
    case ifS =>
      rw [Base.parseF.eq_def] at h
      dsimp only at h
      split at h
      · exact Except.noConfusion h
      rename_i st2 he1
      split at h
      · exact Except.noConfusion h
      rename_i st3 hrec1
      split at h
      · exact Except.noConfusion h
      rename_i st4 he2
      split at h
      · exact Except.noConfusion h
      rename_i st6 hrec2
      split at h
      · split at h
        · exact Except.noConfusion h
        rename_i st10 hrec3
        cases h
        obtain rfl := base_expect_ok he1
        obtain rfl := base_expect_ok he2
        have hg1 := ih .assignment _ _ hrec1 hpre
        have hg2 := ih .stmt _ _ hrec2 hg1
        have hg3 := ih .stmt _ _ hrec3 hg2
        exact hg3
      · cases h
        obtain rfl := base_expect_ok he1
        obtain rfl := base_expect_ok he2
        have hg1 := ih .assignment _ _ hrec1 hpre
        have hg2 := ih .stmt _ _ hrec2 hg1
        exact hg2
    case whileS =>
      rw [Base.parseF.eq_def] at h
      dsimp only at h
      split at h
      · exact Except.noConfusion h
      rename_i st2 he1
      split at h
      · exact Except.noConfusion h
      rename_i st3 hrec1
      split at h
      · exact Except.noConfusion h
      rename_i st4 he2
      split at h
      · exact Except.noConfusion h
      rename_i st6 hrec2
      cases h
      obtain rfl := base_expect_ok he1
      obtain rfl := base_expect_ok he2
      have hg1 := ih .assignment _ _ hrec1 hpre
      have hg2 := ih .stmt _ _ hrec2 hg1
      exact hg2
    case localLoop =>
      rw [Base.parseF.eq_def] at h
      dsimp only at h
      cases hcur : Base.current st <;> rw [hcur] at h <;>
        (try dsimp only at h)
      case Ident name =>
        split at h
        · exact ih .localLoop _ _ h hpre
        · obtain rfl := base_expect_ok h
          exact hpre
      all_goals exact Except.noConfusion h

/-- C10: all globals alias one storage slot.  Every global the parser
registers carries offset 0 (third conjunct, for every accepted token
stream), so every load/store of a global addresses slot 0; hence in
the base variant `int g; int h; int main(){ g=1; h=2; return g; }`
evaluates to 2 — the value assigned through `h` — and not to 1. -/
theorem c10_global_alias :
    (∀ fuel, 50 ≤ fuel → Base.run fuel srcGlobals = .ok 2)
    ∧ Base.run 50 srcGlobals ≠ .ok 1
    ∧ (∀ (ts : List Base.Token) (st' : Base.PState),
        Base.parseF (Base.fuelFor ts) .programLoop (Base.initState ts) =
          .ok st' →
        ∀ p ∈ st'.globals, p.2.offset = 0) := by
  refine ⟨fun f h => base_run_mono 50 f srcGlobals 2 h (by rfl), by decide, ?_⟩
  intro ts st' h
  refine base_parseF_globals_zero _ .programLoop _ _ h ?_
  intro p hp
  exact absurd hp (List.not_mem_nil p)

/-- C10 witness: the concrete aliasing run, plus the offset-0 fact for
the global `g` registered by parsing `int g;`. -/
theorem c10_witness :
    Base.run 50 srcGlobals = .ok 2
    ∧ Base.run 50 srcGlobals ≠ .ok 1
    ∧ (Base.Symbol.mk "g" .Global 0).offset = 0 :=
  ⟨c10_global_alias.1 50 (by decide), c10_global_alias.2.1,
   c10_global_alias.2.2
     [Base.Token.Int, Base.Token.Ident "g", Base.Token.Semicolon]
     { tokens := [Base.Token.Int, Base.Token.Ident "g", Base.Token.Semicolon],
       pos := 3, opcodes := [],
       globals := [("g", Base.Symbol.mk "g" .Global 0)],
       locals := [], localOffset := 0 }
     (by rfl) ("g", Base.Symbol.mk "g" .Global 0) (by simp)⟩

/-- A jump opcode's target is nonnegative and at most `bound`
(non-jumps impose nothing). -/
def jumpOkLe (bound : Nat) : Base.Opcode → Prop
  | .Jmp t => 0 ≤ t ∧ t ≤ (bound : Int)
  | .Jz t => 0 ≤ t ∧ t ≤ (bound : Int)
  | _ => True

/-- A jump opcode's target is nonnegative and strictly below `bound`. -/
def jumpOkLt (bound : Nat) : Base.Opcode → Prop
  | .Jmp t => 0 ≤ t ∧ t < (bound : Int)
  | .Jz t => 0 ≤ t ∧ t < (bound : Int)
  | _ => True

/-- Every jump target in `ops` is at most the sequence length (the
mid-parse invariant: a freshly patched target may momentarily equal
the current length). -/
def jumpsLe (ops : List Base.Opcode) : Prop := ∀ op ∈ ops, jumpOkLe ops.length op

/-- Every jump target in `ops` is a valid index (the final invariant,
established once the trailing `Ret` of a function is emitted). -/
def jumpsLt (ops : List Base.Opcode) : Prop := ∀ op ∈ ops, jumpOkLt ops.length op

theorem jumpOkLe_mono {m n : Nat} (h : m ≤ n) :
    ∀ op, jumpOkLe m op → jumpOkLe n op := by
  intro op hop
  cases op <;>
    first
      | trivial
      | exact ⟨hop.1, hop.2.trans (by exact_mod_cast h)⟩

theorem jumpOkLe_of_lt {m : Nat} : ∀ op, jumpOkLt m op → jumpOkLe m op := by
  intro op hop
  cases op <;> first | trivial | exact ⟨hop.1, le_of_lt hop.2⟩

theorem jumpsLe_of_lt {ops : List Base.Opcode} (h : jumpsLt ops) :
    jumpsLe ops :=
  fun op hop => jumpOkLe_of_lt op (h op hop)

theorem jumpsLe_push {ops : List Base.Opcode} {op : Base.Opcode}
    (h : jumpsLe ops) (hop : jumpOkLe (ops.length + 1) op) :
    jumpsLe (ops ++ [op]) := by
  intro x hx
  simp only [List.length_append, List.length_singleton]
  rcases List.mem_append.mp hx with h1 | h1
  · exact jumpOkLe_mono (by omega) x (h x h1)
  · rcases List.mem_singleton.mp h1 with rfl
    exact hop

theorem jumpsLe_set {ops : List Base.Opcode} {i : Nat} {op : Base.Opcode}
    (h : jumpsLe ops) (hop : jumpOkLe ops.length op) :
    jumpsLe (ops.set i op) := by
  intro x hx
  rw [List.length_set]
  rcases List.mem_or_eq_of_mem_set hx with h1 | rfl
  · exact h x h1
  · exact hop

theorem jumpsLt_push_of_le {ops : List Base.Opcode} {op : Base.Opcode}
    (h : jumpsLe ops) (hop : jumpOkLt (ops.length + 1) op) :
    jumpsLt (ops ++ [op]) := by
  intro x hx
  simp only [List.length_append, List.length_singleton]
  rcases List.mem_append.mp hx with h1 | h1
  · have hle := h x h1
    cases x <;>
      first
        | trivial
        | exact ⟨hle.1, lt_of_le_of_lt hle.2 (by push_cast; omega)⟩
  · rcases List.mem_singleton.mp h1 with rfl
    exact hop

theorem jumpOkLe_Jz_zero (n : Nat) : jumpOkLe n (Base.Opcode.Jz 0) :=
  ⟨le_refl 0, Int.natCast_nonneg n⟩

theorem jumpOkLe_Jmp_zero (n : Nat) : jumpOkLe n (Base.Opcode.Jmp 0) :=
  ⟨le_refl 0, Int.natCast_nonneg n⟩

theorem jumpOkLe_Jz_self (n : Nat) : jumpOkLe n (Base.Opcode.Jz (n : Int)) :=
  ⟨Int.natCast_nonneg n, le_refl _⟩

theorem jumpOkLe_Jmp_cast {n t : Nat} (h : t ≤ n) :
    jumpOkLe n (Base.Opcode.Jmp (t : Int)) :=
  ⟨Int.natCast_nonneg t, by exact_mod_cast h⟩

/-- `.opcodes` projections of the parser-state helpers, as rewrite
rules for length arithmetic. -/
theorem base_advance_opcodes (st : Base.PState) :
    (Base.advance st).opcodes = st.opcodes := rfl

theorem base_pushOp_opcodes (st : Base.PState) (op : Base.Opcode) :
    (Base.pushOp st op).opcodes = st.opcodes ++ [op] := rfl

theorem base_setOp_opcodes (st : Base.PState) (i : Nat) (op : Base.Opcode) :
    (Base.setOp st i op).opcodes = st.opcodes.set i op := rfl

/-- Precondition of the jump invariant, per parsing function: at top
level every already-emitted jump is strictly in bounds; inside a
function body the relaxed `≤` bound holds (a just-patched target may
equal the current length until more code is emitted). -/
def JPre : Call → List Base.Opcode → Prop
  | .programLoop, ops => jumpsLt ops
  | .globalItem, ops => jumpsLt ops
  | _, ops => jumpsLe ops

/-- Postcondition of the jump invariant, per parsing function:
top-level functions restore the strict bound (each function appends
its trailing `Ret` after the last patch); the skip loop leaves the
opcodes untouched; every other function preserves the relaxed bound
and never shrinks the sequence. -/
def JPost : Call → List Base.Opcode → List Base.Opcode → Prop
  | .programLoop, _, ops' => jumpsLt ops'
  | .globalItem, _, ops' => jumpsLt ops'
  | .skipDecl, ops, ops' => ops' = ops
  | _, ops, ops' => jumpsLe ops' ∧ ops.length ≤ ops'.length

/-- The backpatching invariant: every parsing function maps states
satisfying its jump precondition to states satisfying its jump
postcondition.  Placeholders are pushed with target 0, and every
patch writes the sequence length at patch time, which the relaxed
bound tolerates and the trailing `Ret` turns strict. -/
theorem base_parseF_jumps :
    ∀ fuel c st st', Base.parseF fuel c st = .ok st' →
      JPre c st.opcodes → JPost c st.opcodes st'.opcodes := by
  intro fuel
  induction fuel with
  | zero =>
    intro c st st' h _
    exact Except.noConfusion h
  | succ f ih =>
    intro c st st' h hpre
    cases c
    case programLoop =>
      rw [Base.parseF.eq_def] at h
      dsimp only at h
      split at h
      · cases h; exact hpre
      · cases hcur : Base.current st <;> rw [hcur] at h <;>
          (try dsimp only at h)
        case Int => exact ih .globalItem _ _ h hpre
        all_goals exact Except.noConfusion h
    case globalItem =>
      rw [Base.parseF.eq_def] at h
      dsimp only at h
      cases hcur : Base.current st <;> rw [hcur] at h <;>
        (try dsimp only at h)
      case Ident name =>
        split at h
        · split at h
          · split at h
            · exact Except.noConfusion h
            rename_i st3 he1
            split at h
            · exact Except.noConfusion h
            rename_i st4 he2
            split at h
            · exact Except.noConfusion h
            rename_i st6 hrec1
            split at h
            · exact Except.noConfusion h
            rename_i st7 he3
            obtain rfl := base_expect_ok he1
            obtain rfl := base_expect_ok he2
            obtain rfl := base_expect_ok he3
            have hj1 := ih .stmts _ _ hrec1 (jumpsLe_of_lt hpre)
            have hj2 : jumpsLt (st6.opcodes ++ [Base.Opcode.Ret]) :=
              jumpsLt_push_of_le hj1.1 trivial
            exact ih .programLoop _ _ h hj2
          · exact Except.noConfusion h
        · split at h
          · exact Except.noConfusion h
          rename_i st3 hrec
          split at h
          · exact Except.noConfusion h
          rename_i st4 he
          obtain rfl := base_expect_ok he
          have hj1 := ih .skipDecl _ _ hrec (jumpsLe_of_lt hpre)
          have hj2 : jumpsLt st3.opcodes := by rw [hj1]; exact hpre
          exact ih .programLoop _ _ h hj2
      all_goals exact Except.noConfusion h
    case skipDecl =>
      rw [Base.parseF.eq_def] at h
      dsimp only at h
      split at h
      · cases h; rfl
      · split at h
        · cases h; rfl
        · have hr := ih .skipDecl _ _ h hpre
          exact hr
    case stmts =>
      rw [Base.parseF.eq_def] at h
      dsimp only at h
      split at h
      · cases h; exact ⟨hpre, le_refl _⟩
      · split at h
        · exact Except.noConfusion h
        rename_i st1 hrec
        have h1 := ih .stmt _ _ hrec hpre
        have h2 := ih .stmts _ _ h h1.1
        exact ⟨h2.1, h1.2.trans h2.2⟩
    case stmt =>
      rw [Base.parseF.eq_def] at h
      dsimp only at h
      cases hcur : Base.current st <;> rw [hcur] at h <;>
        (try dsimp only at h)
      case Return =>
        split at h
        · exact Except.noConfusion h
        rename_i st2 hrec
        split at h
        · exact Except.noConfusion h
        rename_i st3 he
        cases h
        obtain rfl := base_expect_ok he
        have h1 := ih .assignment _ _ hrec hpre
        refine ⟨jumpsLe_push h1.1 trivial, ?_⟩
        have a1 := h1.2
        simp only [base_advance_opcodes, base_pushOp_opcodes,
          List.length_append, List.length_singleton] at a1 ⊢
        omega
      case If => exact ih .ifS _ _ h hpre
      case While => exact ih .whileS _ _ h hpre
      case LBrace =>
        split at h
        · exact Except.noConfusion h
        rename_i st2 hrec
        obtain rfl := base_expect_ok h
        have hr := ih .stmts _ _ hrec hpre
        exact hr
      case Int =>
        have hr := ih .localLoop _ _ h hpre
        exact hr
      all_goals
        (split at h
         · exact Except.noConfusion h
         rename_i st1 hrec
         obtain rfl := base_expect_ok h
         have hr := ih .assignment _ _ hrec hpre
         exact hr)
    case ifS =>
      rw [Base.parseF.eq_def] at h
      dsimp only at h
      split at h
      · exact Except.noConfusion h
      rename_i st2 he1
      split at h
      · exact Except.noConfusion h
      rename_i st3 hrec1
      split at h
      · exact Except.noConfusion h
      rename_i st4 he2
      split at h
      · exact Except.noConfusion h
      rename_i st6 hrec2
      obtain rfl := base_expect_ok he1
      obtain rfl := base_expect_ok he2
      have h1 := ih .assignment _ _ hrec1 hpre
      have h5 : jumpsLe (st3.opcodes ++ [Base.Opcode.Jz 0]) :=
        jumpsLe_push h1.1 (jumpOkLe_Jz_zero _)
      have h2 := ih .stmt _ _ hrec2 h5
      split at h
      · split at h
        · exact Except.noConfusion h
        rename_i st10 hrec3
        cases h
        have h8 : jumpsLe (st6.opcodes ++ [Base.Opcode.Jmp 0]) :=
          jumpsLe_push h2.1 (jumpOkLe_Jmp_zero _)
        have h9 : jumpsLe ((st6.opcodes ++ [Base.Opcode.Jmp 0]).set
            ((Base.advance st3).opcodes.length)
            (Base.Opcode.Jz
              (((st6.opcodes ++ [Base.Opcode.Jmp 0]).length : Nat) : Int))) :=
          jumpsLe_set h8 (jumpOkLe_Jz_self _)
        have h3 := ih .stmt _ _ hrec3 h9
        refine ⟨jumpsLe_set h3.1 ⟨Int.natCast_nonneg _, le_refl _⟩, ?_⟩
        have a1 := h1.2
        have a2 := h2.2
        have a3 := h3.2
        simp only [base_advance_opcodes, base_pushOp_opcodes,
          base_setOp_opcodes, List.length_append, List.length_singleton,
          List.length_set] at a1 a2 a3 ⊢
        omega
      · cases h
        refine ⟨jumpsLe_set h2.1 (jumpOkLe_Jz_self _), ?_⟩
        have a1 := h1.2
        have a2 := h2.2
        simp only [base_advance_opcodes, base_pushOp_opcodes,
          base_setOp_opcodes, List.length_append, List.length_singleton,
          List.length_set] at a1 a2 ⊢
        omega
    case whileS =>
      rw [Base.parseF.eq_def] at h
      dsimp only at h
      split at h
      · exact Except.noConfusion h
      rename_i st2 he1
      split at h
      · exact Except.noConfusion h
      rename_i st3 hrec1
      split at h
      · exact Except.noConfusion h
      rename_i st4 he2
      split at h
      · exact Except.noConfusion h
      rename_i st6 hrec2
      obtain rfl := base_expect_ok he1
      obtain rfl := base_expect_ok he2
      have h1 := ih .assignment _ _ hrec1 hpre
      have h5 : jumpsLe (st3.opcodes ++ [Base.Opcode.Jz 0]) :=
        jumpsLe_push h1.1 (jumpOkLe_Jz_zero _)
      have h2 := ih .stmt _ _ hrec2 h5
      cases h
      have hlen : (Base.advance st).opcodes.length ≤ st6.opcodes.length + 1 := by
        have a1 := h1.2
        have a2 := h2.2
        simp only [base_advance_opcodes, base_pushOp_opcodes,
          List.length_append, List.length_singleton] at a1 a2 ⊢
        omega
      have h6 : jumpsLe (st6.opcodes ++
          [Base.Opcode.Jmp (((Base.advance st).opcodes.length : Nat) : Int)]) :=
        jumpsLe_push h2.1 (jumpOkLe_Jmp_cast hlen)
      refine ⟨jumpsLe_set h6 (jumpOkLe_Jz_self _), ?_⟩
      have a1 := h1.2
      have a2 := h2.2
      simp only [base_advance_opcodes, base_pushOp_opcodes,
        base_setOp_opcodes, List.length_append, List.length_singleton,
        List.length_set] at a1 a2 ⊢
      omega
    case localLoop =>
      rw [Base.parseF.eq_def] at h
      dsimp only at h
      cases hcur : Base.current st <;> rw [hcur] at h <;>
        (try dsimp only at h)
      case Ident name =>
        split at h
        · have hr := ih .localLoop _ _ h hpre
          exact hr
        · obtain rfl := base_expect_ok h
          exact ⟨hpre, le_refl _⟩
      all_goals exact Except.noConfusion h
    case assignment =>
      rw [Base.parseF.eq_def] at h
      dsimp only at h
      cases hcur : Base.current st <;> rw [hcur] at h <;>
        (try dsimp only at h)
      case Ident name =>
        split at h
        · split at h
          · exact Except.noConfusion h
          rename_i st3 hrec
          have h1 := ih .assignment _ _ hrec hpre
          split at h
          · rename_i sym hl
            cases h
            refine ⟨jumpsLe_push h1.1 trivial, ?_⟩
            have a1 := h1.2
            simp only [base_advance_opcodes, base_pushOp_opcodes,
              List.length_append, List.length_singleton] at a1 ⊢
            omega
          · split at h
            · rename_i sym hg
              cases h
              refine ⟨jumpsLe_push h1.1 trivial, ?_⟩
              have a1 := h1.2
              simp only [base_advance_opcodes, base_pushOp_opcodes,
                List.length_append, List.length_singleton] at a1 ⊢
              omega
            · exact Except.noConfusion h
        · exact ih .additive _ _ h hpre
      all_goals exact ih .additive _ _ h hpre
    case additive =>
      rw [Base.parseF.eq_def] at h
      dsimp only at h
      split at h
      · exact Except.noConfusion h
      rename_i st1 hrec
      have h1 := ih .term _ _ hrec hpre
      have h2 := ih .addLoop _ _ h h1.1
      exact ⟨h2.1, h1.2.trans h2.2⟩
    case addLoop =>
      rw [Base.parseF.eq_def] at h
      dsimp only at h
      cases hcur : Base.current st <;> rw [hcur] at h <;>
        (try dsimp only at h)
      case Plus =>
        split at h
        · exact Except.noConfusion h
        rename_i st1 hrec
        have h1 := ih .term _ _ hrec hpre
        have h2 := ih .addLoop _ _ h (jumpsLe_push h1.1 trivial)
        refine ⟨h2.1, ?_⟩
        have a1 := h1.2
        have a2 := h2.2
        simp only [base_advance_opcodes, base_pushOp_opcodes,
          List.length_append, List.length_singleton] at a1 a2 ⊢
        omega
      case Minus =>
        split at h
        · exact Except.noConfusion h
        rename_i st1 hrec
        have h1 := ih .term _ _ hrec hpre
        have h2 := ih .addLoop _ _ h (jumpsLe_push h1.1 trivial)
        refine ⟨h2.1, ?_⟩
        have a1 := h1.2
        have a2 := h2.2
        simp only [base_advance_opcodes, base_pushOp_opcodes,
          List.length_append, List.length_singleton] at a1 a2 ⊢
        omega
      all_goals (cases h; exact ⟨hpre, le_refl _⟩)
    case term =>
      rw [Base.parseF.eq_def] at h
      dsimp only at h
      split at h
      · exact Except.noConfusion h
      rename_i st1 hrec
      have h1 := ih .factor _ _ hrec hpre
      have h2 := ih .mulLoop _ _ h h1.1
      exact ⟨h2.1, h1.2.trans h2.2⟩
    case mulLoop =>
      rw [Base.parseF.eq_def] at h
      dsimp only at h
      cases hcur : Base.current st <;> rw [hcur] at h <;>
        (try dsimp only at h)
      case Mul =>
        split at h
        · exact Except.noConfusion h
        rename_i st1 hrec
        have h1 := ih .factor _ _ hrec hpre
        have h2 := ih .mulLoop _ _ h (jumpsLe_push h1.1 trivial)
        refine ⟨h2.1, ?_⟩
        have a1 := h1.2
        have a2 := h2.2
        simp only [base_advance_opcodes, base_pushOp_opcodes,
          List.length_append, List.length_singleton] at a1 a2 ⊢
        omega
      case Div =>
        split at h
        · exact Except.noConfusion h
        rename_i st1 hrec
        have h1 := ih .factor _ _ hrec hpre
        have h2 := ih .mulLoop _ _ h (jumpsLe_push h1.1 trivial)
        refine ⟨h2.1, ?_⟩
        have a1 := h1.2
        have a2 := h2.2
        simp only [base_advance_opcodes, base_pushOp_opcodes,
          List.length_append, List.length_singleton] at a1 a2 ⊢
        omega
      all_goals (cases h; exact ⟨hpre, le_refl _⟩)
    case factor =>
      rw [Base.parseF.eq_def] at h
      dsimp only at h
      cases hcur : Base.current st <;> rw [hcur] at h <;>
        (try dsimp only at h)
      case Num n =>
        cases h
        refine ⟨jumpsLe_push hpre trivial, ?_⟩
        simp only [base_advance_opcodes, base_pushOp_opcodes,
          List.length_append, List.length_singleton]
        omega
      case Ident name =>
        split at h
        · rename_i sym hl
          cases h
          refine ⟨jumpsLe_push hpre trivial, ?_⟩
          simp only [base_advance_opcodes, base_pushOp_opcodes,
            List.length_append, List.length_singleton]
          omega
        · split at h
          · rename_i sym hg
            cases h
            refine ⟨jumpsLe_push hpre trivial, ?_⟩
            simp only [base_advance_opcodes, base_pushOp_opcodes,
              List.length_append, List.length_singleton]
            omega
          · exact Except.noConfusion h
      case LParen =>
        split at h
        · exact Except.noConfusion h
        rename_i st1 hrec
        obtain rfl := base_expect_ok h
        have hr := ih .assignment _ _ hrec hpre
        exact hr
      all_goals exact Except.noConfusion h

/-- C7: for every token stream the base parser accepts, every jump
instruction (`Jmp` and `Jz`) in the returned sequence carries a target
`t` with `0 ≤ t < length`: backpatching in if/else and while plus the
implicit `Ret` at function end establish this by construction. -/
theorem c7_jump_targets :
    ∀ (ts : List Base.Token) (ops : List Base.Opcode),
      Base.parse ts = .ok ops →
      ∀ op ∈ ops, jumpOkLt ops.length op := by
  intro ts ops h op hop
  unfold Base.parse at h
  cases hp : Base.parseF (Base.fuelFor ts) .programLoop (Base.initState ts) with
  | error e => rw [hp] at h; exact Except.noConfusion h
  | ok st' =>
    rw [hp] at h
    cases h
    have hj := base_parseF_jumps _ .programLoop _ _ hp
      (fun x hx => absurd hx (List.not_mem_nil x))
    exact hj op hop

/-- Token stream of `int main(){ if (1) { return 7; } else { return 8; } }`. -/
def tsIfElse : List Base.Token :=
  [Base.Token.Int, Base.Token.Ident "main", Base.Token.LParen,
   Base.Token.RParen, Base.Token.LBrace, Base.Token.If, Base.Token.LParen,
   Base.Token.Num 1, Base.Token.RParen, Base.Token.LBrace,
   Base.Token.Return, Base.Token.Num 7, Base.Token.Semicolon,
   Base.Token.RBrace, Base.Token.Else, Base.Token.LBrace,
   Base.Token.Return, Base.Token.Num 8, Base.Token.Semicolon,
   Base.Token.RBrace, Base.Token.RBrace]

/-- The opcodes the base parser emits for `tsIfElse`. -/
def opsIfElse : List Base.Opcode :=
  [Base.Opcode.Imm 1, Base.Opcode.Jz 5, Base.Opcode.Imm 7, Base.Opcode.Ret,
   Base.Opcode.Jmp 7, Base.Opcode.Imm 8, Base.Opcode.Ret, Base.Opcode.Ret]

/-- C7 witness: the backpatched `Jz 5` of the if/else program is a
valid index into its 8-instruction sequence. -/
theorem c7_witness : jumpOkLt opsIfElse.length (Base.Opcode.Jz 5) :=
  c7_jump_targets tsIfElse opsIfElse (by rfl) (Base.Opcode.Jz 5) (by decide)

/-- C8: compilation is deterministic and restartable.  `tokenize` and
`parse` are pure functions of their input (two applications to the
same input are equal), and `parse` is by definition the run of a
parser whose state is created fresh (`Parser::new`, here `initState`)
from the tokens alone — no state persists between compilations, in
either variant. -/
theorem c8_deterministic :
    (∀ src : String, Base.tokenize src = Base.tokenize src)
    ∧ (∀ ts, Base.parse ts = Base.parse ts)
    ∧ (∀ ts, Base.parse ts =
        match Base.parseF (Base.fuelFor ts) .programLoop
            (Base.initState ts) with
        | .error e => .error e
        | .ok st => .ok st.opcodes)
    ∧ (∀ src : String, Bonus.tokenize src = Bonus.tokenize src)
    ∧ (∀ ts, Bonus.parse ts = Bonus.parse ts)
    ∧ (∀ ts, Bonus.parse ts =
        match Bonus.parseF (Bonus.fuelFor ts) .programLoop
            (Bonus.initState ts) with
        | .error e => .error e
        | .ok st => .ok st.opcodes) :=
  ⟨fun _ => rfl, fun _ => rfl, fun _ => rfl, fun _ => rfl, fun _ => rfl,
   fun _ => rfl⟩
